import Mathlib

/-!
# SGDK DMA queue (`src/dma.c`)

A shallow embedding of the DMA queue manager of SGDK: the queue state (the
file-level statics of `dma.c`), `DMA_initEx`, `DMA_clearQueue`,
`DMA_queueDma` and `DMA_flushQueue`, followed by theorems about them.

Machine integers are natural numbers reduced explicitly: `u16` values modulo
`0x10000`, `u32` values modulo `0x100000000`.
-/

namespace Dma

/-! ## Data model -/

/-- One queue entry: the four pre-packed 32-bit command words (`DMAOpInfo`). -/
structure DMAOpInfo where
  regLen : Nat
  regAddrMStep : Nat
  regAddrHAddrL : Nat
  regCtrlWrite : Nat
deriving DecidableEq, Repr

/-- Constants and macros that `dma.c` takes from `dma.h`, `vdp.h` and `sys.h`.
Those headers are not part of the sources, so every definition and theorem is
parametrised by them. -/
structure VdpHeader where
  DMA_VRAM : Nat
  DMA_CRAM : Nat
  DMA_VSRAM : Nat
  GFX_DMA_VRAM_ADDR : Nat → Nat
  GFX_DMA_CRAM_ADDR : Nat → Nat
  GFX_DMA_VSRAM_ADDR : Nat → Nat
  PROCESS_DMA_TASK : Nat

def DMA_DEFAULT_QUEUE_SIZE : Nat := 64

def DMA_AUTOFLUSH : Nat := 0x1

def DMA_OVERCAPACITY_IGNORE : Nat := 0x2

/-- The statics of `dma.c` together with `VIntProcess`.  `dmaQueues` is the
memory reached through the `dmaQueues` pointer, indexed by slot; the block
obtained from `MEM_alloc` covers the slots below `queueSize`, and a slot at or
above `queueSize` lies outside of it. -/
structure DMAState where
  dmaQueues : Nat → DMAOpInfo
  queueSize : Nat
  maxTransferPerFrame : Nat
  flag : Nat
  queueIndex : Nat
  queueIndexLimit : Nat
  queueTransferSize : Nat
  VIntProcess : Nat

/-- Ghost record of one descriptor write of `DMA_queueDma`: the slot written,
the arguments the descriptor was packed from (`from_`, `to_`, `step` of the
call and the word length `newlen`), and the descriptor itself. -/
structure Stored where
  slot : Nat
  from_ : Nat
  to_ : Nat
  newlen : Nat
  step : Nat
  info : DMAOpInfo
deriving DecidableEq, Repr

/-- What a `DMA_queueDma` call leaves behind: the new state, the returned
boolean, and the descriptor writes it made, in the order they were made. -/
structure QueueResult where
  state : DMAState
  ret : Bool
  stored : List Stored

/-- What a `DMA_flushQueue` call does: the new state and the descriptors it
replays to the hardware, in replay order. -/
structure FlushResult where
  state : DMAState
  replayed : List DMAOpInfo

/-- Arguments of one `DMA_queueDma` call (`u8 location`, `u32 from`, `u16 to`,
`u16 len`, `u16 step`). -/
structure Request where
  location : Nat
  from_ : Nat
  to_ : Nat
  len : Nat
  step : Nat
deriving DecidableEq, Repr

/-! ## Operations -/

/-- `DMA_clearQueue` (lines 110-115). -/
def DMA_clearQueue (s : DMAState) : DMAState :=
  { s with queueIndex := 0, queueIndexLimit := 0, queueTransferSize := 0 }

/-- `DMA_initEx` (lines 47-65).  `fresh` is the content of the block returned
by `MEM_alloc`. -/
def DMA_initEx (s : DMAState) (fresh : Nat → DMAOpInfo) (size capacity : Nat) : DMAState :=
  DMA_clearQueue
    { s with
      queueSize := if size ≠ 0 then size else DMA_DEFAULT_QUEUE_SIZE
      maxTransferPerFrame := capacity
      flag := DMA_AUTOFLUSH
      dmaQueues := fresh }

/-- `DMA_setIgnoreOverCapacity` (lines 104-108); `flag` is a `u16`. -/
def DMA_setIgnoreOverCapacity (s : DMAState) (value : Bool) : DMAState :=
  if value then { s with flag := s.flag ||| DMA_OVERCAPACITY_IGNORE }
  else { s with flag := s.flag &&& (0xFFFF - DMA_OVERCAPACITY_IGNORE) }

/-- `DMA_getIgnoreOverCapacity` (lines 99-102). -/
def DMA_getIgnoreOverCapacity (s : DMAState) : Bool :=
  if s.flag &&& DMA_OVERCAPACITY_IGNORE ≠ 0 then true else false

/-- `DMA_getAutoFlush` (lines 67-70). -/
def DMA_getAutoFlush (s : DMAState) : Bool :=
  if s.flag &&& DMA_AUTOFLUSH ≠ 0 then true else false

/-- `DMA_setMaxTransferSize` (lines 89-92). -/
def DMA_setMaxTransferSize (s : DMAState) (value : Nat) : DMAState :=
  { s with maxTransferPerFrame := value }

/-- `DMA_getQueueSize` (lines 246-249). -/
def DMA_getQueueSize (s : DMAState) : Nat := s.queueIndex

/-- `DMA_getQueueTransferSize` (lines 251-254). -/
def DMA_getQueueTransferSize (s : DMAState) : Nat := s.queueTransferSize

/-- The three packed register words of lines 290-295 and the trigger word of
the `switch` of lines 298-320 (which has no `default`: for any other
`location` the slot keeps the `regCtrlWrite` it had, here `old`). -/
def packInfo (h : VdpHeader) (old : DMAOpInfo) (location from_ to_ newlen step : Nat) :
    DMAOpInfo :=
  { regLen := ((newlen ||| ((newlen <<< 8) % 0x100000000)) &&& 0xFF00FF) ||| 0x94009300
    regAddrMStep :=
      (((((from_ <<< 7) % 0x100000000) &&& 0xFF0000) ||| 0x96008F00) + step) % 0x100000000
    regAddrHAddrL := ((from_ >>> 1) &&& 0x7F00FF) ||| 0x97009500
    regCtrlWrite :=
      if location = h.DMA_VRAM then h.GFX_DMA_VRAM_ADDR to_
      else if location = h.DMA_CRAM then h.GFX_DMA_CRAM_ADDR to_
      else if location = h.DMA_VSRAM then h.GFX_DMA_VSRAM_ADDR to_
      else old.regCtrlWrite }

/-- Lines 287-356 of `DMA_queueDma`: everything after the bank split.  Writes
the descriptor for (`from_`, `newlen`) at slot `queueIndex`, advances the
counters, raises the pending-flush bit, and runs the budget check.  `acc` are
the descriptor writes already made by this call. -/
def queueTail (h : VdpHeader) (s : DMAState) (location from_ to_ newlen step : Nat)
    (acc : List Stored) : QueueResult :=
  let info := packInfo h (s.dmaQueues s.queueIndex) location from_ to_ newlen step
  let w : Stored := ⟨s.queueIndex, from_, to_, newlen, step, info⟩
  -- queueIndex++ ; queueTransferSize += newlen << 1
  let s1 : DMAState :=
    { s with
      dmaQueues := Function.update s.dmaQueues s.queueIndex info
      queueIndex := (s.queueIndex + 1) % 0x10000
      queueTransferSize :=
        (s.queueTransferSize + (newlen <<< 1) % 0x100000000) % 0x100000000 }
  -- if (flag & DMA_AUTOFLUSH) VIntProcess |= PROCESS_DMA_TASK
  let s2 : DMAState :=
    if s1.flag &&& DMA_AUTOFLUSH ≠ 0 then
      { s1 with VIntProcess := s1.VIntProcess ||| h.PROCESS_DMA_TASK }
    else s1
  if s2.maxTransferPerFrame ≠ 0 ∧ s2.queueTransferSize > s2.maxTransferPerFrame then
    -- queueIndexLimit = queueIndex - 1 (stored into a u16)
    let s3 : DMAState :=
      if s2.queueIndexLimit = 0 then
        { s2 with queueIndexLimit := (s2.queueIndex + 0x10000 - 1) % 0x10000 }
      else s2
    ⟨s3, if s3.flag &&& DMA_OVERCAPACITY_IGNORE ≠ 0 then false else true, acc ++ [w]⟩
  else
    ⟨s2, true, acc ++ [w]⟩

/-- `DMA_queueDma` (lines 256-357).  The C function calls itself for the
second bank; the first argument bounds the depth of those calls, and `none`
means the bound was too small.  The value returned by the inner call is
dropped, as in the source. -/
def DMA_queueDma (h : VdpHeader) :
    Nat → DMAState → Nat → Nat → Nat → Nat → Nat → Option QueueResult
  | 0, _, _, _, _, _, _ => none
  | fuel + 1, s, location, from_, to_, len, step =>
    if s.queueIndex ≥ s.queueSize then some ⟨s, false, []⟩
    else
      let banklimitb := 0x20000 - (from_ &&& 0x1FFFF)
      let banklimitw := banklimitb >>> 1
      if len > banklimitw then
        match DMA_queueDma h fuel s location ((from_ + banklimitb) % 0x100000000)
            ((to_ + banklimitb) % 0x10000) ((len - banklimitw) % 0x10000) step with
        | none => none
        | some r => some (queueTail h r.state location from_ to_ banklimitw step r.stored)
      else some (queueTail h s location from_ to_ len step [])

/-- The number of descriptors `DMA_flushQueue` replays: the value of `i` after
lines 122-140. -/
def replayCount (s : DMAState) : Nat :=
  if s.queueIndexLimit ≠ 0 then
    if s.flag &&& DMA_OVERCAPACITY_IGNORE ≠ 0 then s.queueIndexLimit else s.queueIndex
  else s.queueIndex

/-- `DMA_flushQueue` (lines 117-197).  The replay loop walks the slots
`0 .. i-1` in ascending order (`while(i--) ... info++`, and the reference
version of `flushQueue` / `flushQueueSafe` in lines 199-244); afterwards the
queue is cleared.  Waiting for the VDP and saving and restoring its
auto-increment do not touch the queue state. -/
def DMA_flushQueue (s : DMAState) : FlushResult :=
  ⟨DMA_clearQueue s, (List.range (replayCount s)).map s.dmaQueues⟩

/-- Runs `DMA_queueDma` on a list of requests, one after the other, collecting
the returned booleans and the descriptor writes of all calls. -/
def runQueue (h : VdpHeader) (fuel : Nat) :
    DMAState → List Request → Option (DMAState × List Bool × List Stored)
  | s, [] => some (s, [], [])
  | s, r :: rs =>
    match DMA_queueDma h fuel s r.location r.from_ r.to_ r.len r.step with
    | none => none
    | some q =>
      match runQueue h fuel q.state rs with
      | none => none
      | some (s', rets, ws) => some (s', q.ret :: rets, q.stored ++ ws)

/-! ## Auxiliary definitions used in the statements -/

/-- The descriptor that `queueTail` writes. -/
def tailWrite (h : VdpHeader) (s : DMAState) (location from_ to_ newlen step : Nat) : Stored :=
  ⟨s.queueIndex, from_, to_, newlen, step,
    packInfo h (s.dmaQueues s.queueIndex) location from_ to_ newlen step⟩

/-- The budget test of line 335, on the total after the descriptor was added. -/
def overBudget (s : DMAState) (newlen : Nat) : Prop :=
  s.maxTransferPerFrame ≠ 0 ∧
    (s.queueTransferSize + (2 * newlen) % 0x100000000) % 0x100000000 > s.maxTransferPerFrame

instance (s : DMAState) (newlen : Nat) : Decidable (overBudget s newlen) := by
  unfold overBudget; infer_instance

/-- The high-address segment of a split request: its arguments as computed in
line 281. -/
def highFrom (from_ : Nat) : Nat := (from_ + (0x20000 - from_ % 0x20000)) % 0x100000000

def highTo (from_ to_ : Nat) : Nat := (to_ + (0x20000 - from_ % 0x20000)) % 0x10000

def highLen (from_ len : Nat) : Nat := (len - (0x20000 - from_ % 0x20000) / 2) % 0x10000

/-- Combined byte size of a list of descriptor writes: the sum of `2 * newlen`. -/
def storedBytes (ws : List Stored) : Nat := (ws.map (fun w => 2 * w.newlen)).sum

/-! ## Concrete inputs used to evaluate the definitions -/

/-- Modelled from the spec: the values of `DMA_VRAM`, `DMA_CRAM`, `DMA_VSRAM`,
`PROCESS_DMA_TASK` and of the `GFX_DMA_*_ADDR` macros live in headers that are
not among the sources; section 6 only says that the trigger word is a
destination-class-specific command constant combined with the destination
offset.  This instance fixes one choice and is used only to evaluate examples;
the theorems hold for every header. -/
def sampleHeader : VdpHeader :=
  { DMA_VRAM := 0
    DMA_CRAM := 1
    DMA_VSRAM := 2
    GFX_DMA_VRAM_ADDR := fun adr =>
      (((0x4000 + (adr &&& 0x3FFF)) <<< 16) + ((adr >>> 14) ||| 0x80)) % 0x100000000
    GFX_DMA_CRAM_ADDR := fun adr =>
      (((0xC000 + (adr &&& 0x3FFF)) <<< 16) + ((adr >>> 14) ||| 0x80)) % 0x100000000
    GFX_DMA_VSRAM_ADDR := fun adr =>
      (((0x4000 + (adr &&& 0x3FFF)) <<< 16) + ((adr >>> 14) ||| 0x90)) % 0x100000000
    PROCESS_DMA_TASK := 0x4 }

/-- The statics before `DMA_initEx` has run: zero-initialised. -/
def powerOn : DMAState :=
  { dmaQueues := fun _ => ⟨0, 0, 0, 0⟩
    queueSize := 0
    maxTransferPerFrame := 0
    flag := 0
    queueIndex := 0
    queueIndexLimit := 0
    queueTransferSize := 0
    VIntProcess := 0 }

/-- An allocated block with all words zero. -/
def zeroBlock : Nat → DMAOpInfo := fun _ => ⟨0, 0, 0, 0⟩

/-- A cleared 64-slot queue with a budget of 100 bytes per frame and
ignore-over-capacity enabled: `DMA_initEx(64, 100)` followed by
`DMA_setIgnoreOverCapacity(TRUE)`. -/
def budget100 : DMAState :=
  DMA_setIgnoreOverCapacity (DMA_initEx powerOn zeroBlock 64 100) true

/-- The full-queue scenario: capacity 4, budget 0, and four non-crossing transfers
of 10 words each already queued. -/
def fourQueued : DMAState :=
  match runQueue sampleHeader 2 (DMA_initEx powerOn zeroBlock 4 0)
      [⟨0, 0x1000, 0, 10, 2⟩, ⟨0, 0x2000, 0x20, 10, 2⟩, ⟨0, 0x3000, 0x40, 10, 2⟩,
        ⟨0, 0x4000, 0x60, 10, 2⟩] with
  | some (s, _, _) => s
  | none => powerOn

/-- The three requests of the budget scenario: non-crossing transfers of 20
words (40 bytes) each. -/
def threeTransfers : List Request :=
  [⟨0, 0x1000, 0, 20, 2⟩, ⟨0, 0x2000, 0x40, 20, 2⟩, ⟨0, 0x3000, 0x80, 20, 2⟩]

/-! ## Hardware accesses: direct transfers and the flush loop -/

/-- One access to the hardware or to a collaborator, in program order. -/
inductive HwEvent where
  /-- Call of `VDP_waitDMACompletion()`; the event stands for its return. -/
  | waitDMACompletion
  /-- Call of `VDP_getAutoInc()`. -/
  | getAutoInc
  /-- Call of `VDP_setAutoInc(v)`. -/
  | setAutoInc (v : Int)
  /-- 16-bit write to `GFX_CTRL_PORT`. -/
  | ctrlW (v : Nat)
  /-- 32-bit write to `GFX_CTRL_PORT`. -/
  | ctrlL (v : Nat)
  /-- 16-bit write to `GFX_DATA_PORT`. -/
  | dataW (v : Nat)
  /-- 16-bit write to `Z80_HALT_PORT`. -/
  | z80Halt (v : Nat)
deriving DecidableEq, Repr

/-- What `dma.c` reads from its collaborators and from the build: the answers
of `Z80_isBusTaken()` and `VDP_getAutoInc()` (they may depend on everything
done to the hardware so far), the 16-bit word found at a 68k address, the
`GFX_WRITE_*_ADDR` macros of `vdp.h`, and the two build switches of
`config.h`. -/
structure Env where
  Z80_isBusTaken : List HwEvent → Bool
  VDP_getAutoInc : List HwEvent → Nat
  readWord : Nat → Nat
  GFX_WRITE_VRAM_ADDR : Nat → Nat
  GFX_WRITE_CRAM_ADDR : Nat → Nat
  GFX_WRITE_VSRAM_ADDR : Nat → Nat
  GFX_DMA_VRAMCOPY_ADDR : Nat → Nat
  DMA_DISABLED : Bool
  HALT_Z80_ON_DMA : Bool

/-- The length `l` that `DMA_doVRamFill` programs (lines 478-493). -/
def fillLength (to_ len : Nat) : Nat :=
  if len ≠ 0 then
    if to_ &&& 1 ≠ 0 then
      if len < 3 then 1 else len - 2
    else
      if len < 2 then 1 else len - 1
  else len

/-- `DMA_doVRamFill` (lines 469-519): the accesses it makes, appended to the
history `tr`.  `step` is an `s16`, `value` a `u8`. -/
def DMA_doVRamFill (h : VdpHeader) (tr : List HwEvent) (to_ len value : Nat) (step : Int) :
    List HwEvent :=
  let tr1 := if step ≠ -1 then tr ++ [HwEvent.setAutoInc step] else tr
  let l := fillLength to_ len
  tr1 ++ [HwEvent.waitDMACompletion,
    HwEvent.ctrlW (0x9300 + (l &&& 0xFF)),
    HwEvent.ctrlW (0x9400 + ((l >>> 8) &&& 0xFF)),
    HwEvent.ctrlW 0x9780,
    HwEvent.ctrlL (h.GFX_DMA_VRAM_ADDR to_),
    HwEvent.dataW ((value ||| (value <<< 8)) % 0x10000)]

/-- `DMA_doVRamCopy` (lines 521-548). -/
def DMA_doVRamCopy (e : Env) (tr : List HwEvent) (from_ to_ len : Nat) (step : Int) :
    List HwEvent :=
  let tr1 := if step ≠ -1 then tr ++ [HwEvent.setAutoInc step] else tr
  tr1 ++ [HwEvent.waitDMACompletion,
    HwEvent.ctrlW (0x9300 + (len &&& 0xff)),
    HwEvent.ctrlW (0x9400 + ((len >>> 8) &&& 0xff)),
    HwEvent.ctrlW (0x9500 + (from_ &&& 0xff)),
    HwEvent.ctrlW (0x9600 + ((from_ >>> 8) &&& 0xff)),
    HwEvent.ctrlW 0x97C0,
    HwEvent.ctrlL (e.GFX_DMA_VRAMCOPY_ADDR to_)]

/-- `DMA_doSoftwareCopyDirect` (lines 573-590): the command word, then `len`
data words read from `from_`, `from_ + 2`, ... -/
def DMA_doSoftwareCopyDirect (e : Env) (tr : List HwEvent) (cmd from_ len : Nat) (step : Int) :
    List HwEvent :=
  let tr1 := if step ≠ -1 then tr ++ [HwEvent.setAutoInc step] else tr
  tr1 ++ [HwEvent.ctrlL cmd]
    ++ (List.range len).map (fun k => HwEvent.dataW (e.readWord ((from_ + 2 * k) % 0x100000000)))

/-- `DMA_doSoftwareCopy` (lines 550-571). -/
def DMA_doSoftwareCopy (h : VdpHeader) (e : Env) (tr : List HwEvent)
    (location from_ to_ len : Nat) (step : Int) : List HwEvent :=
  let cmd :=
    if location = h.DMA_CRAM then e.GFX_WRITE_CRAM_ADDR to_
    else if location = h.DMA_VSRAM then e.GFX_WRITE_VSRAM_ADDR to_
    else e.GFX_WRITE_VRAM_ADDR to_
  DMA_doSoftwareCopyDirect e tr cmd from_ len step

/-- The five length and address register values that `DMA_doDma` writes one
by one (lines 405-415), in program order. -/
def doDmaRegWrites (from_ newlen : Nat) : List Nat :=
  let from1 := from_ >>> 1
  let from2 := from1 >>> 8
  let from3 := from2 >>> 8
  [0x9300 + (newlen &&& 0xff), 0x9400 + ((newlen >>> 8) &&& 0xff),
    0x9500 + (from1 &&& 0xff), 0x9600 + (from2 &&& 0xff), 0x9700 + (from3 &&& 0x7f)]

/-- The trigger command of `DMA_doDma` (the `switch` of lines 417-431, where
`default` shares the `DMA_VRAM` case). -/
def doDmaCmd (h : VdpHeader) (location to_ : Nat) : Nat :=
  if location = h.DMA_CRAM then h.GFX_DMA_CRAM_ADDR to_
  else if location = h.DMA_VSRAM then h.GFX_DMA_VSRAM_ADDR to_
  else h.GFX_DMA_VRAM_ADDR to_

/-- Lines 433-465 of `DMA_doDma`: the first command half-word, the Z80 halt,
the trigger half-word, and the Z80 restore, whose place depends on
`HALT_Z80_ON_DMA`.  The command is stored in memory as a 32-bit big-endian
value and read back as two half-words, the high one first. -/
def doDmaTrigger (haltZ80 : Bool) (cmd z80restore : Nat) : List HwEvent :=
  [HwEvent.ctrlW ((cmd % 0x100000000) / 0x10000), HwEvent.z80Halt 0x0100]
    ++ (if haltZ80 then [] else [HwEvent.z80Halt z80restore])
    ++ [HwEvent.ctrlW (cmd % 0x10000)]
    ++ (if haltZ80 then [HwEvent.z80Halt z80restore] else [])

/-- Lines 393-465 of `DMA_doDma` (hardware build): everything after the bank
split, for the word length `newlen`. -/
def doDmaTail (h : VdpHeader) (e : Env) (tr : List HwEvent)
    (location from_ to_ newlen : Nat) (step : Int) : List HwEvent :=
  let tr1 := if step ≠ -1 then tr ++ [HwEvent.setAutoInc step] else tr
  let tr2 := tr1 ++ [HwEvent.waitDMACompletion]
  let z80restore := if e.Z80_isBusTaken tr2 then 0x0100 else 0x0000
  tr2 ++ (doDmaRegWrites from_ newlen).map HwEvent.ctrlW
    ++ doDmaTrigger e.HALT_Z80_ON_DMA (doDmaCmd h location to_) z80restore

/-- `DMA_doDma` (lines 364-467): the accesses it makes, appended to the
history `tr`.  As for `DMA_queueDma` the first argument bounds the depth of
the nested calls.  `step` is an `s16`; the nested call gets `-1`. -/
def DMA_doDma (h : VdpHeader) (e : Env) :
    Nat → List HwEvent → Nat → Nat → Nat → Nat → Int → Option (List HwEvent)
  | 0, _, _, _, _, _, _ => none
  | fuel + 1, tr, location, from_, to_, len, step =>
    if e.DMA_DISABLED then
      some (DMA_doSoftwareCopy h e (tr ++ [HwEvent.waitDMACompletion]) location from_ to_ len step)
    else
      let banklimitb := 0x20000 - (from_ &&& 0x1FFFF)
      let banklimitw := banklimitb >>> 1
      if len > banklimitw then
        match DMA_doDma h e fuel tr location ((from_ + banklimitb) % 0x100000000)
            ((to_ + banklimitb) % 0x10000) ((len - banklimitw) % 0x10000) (-1) with
        | none => none
        | some tr1 => some (doDmaTail h e tr1 location from_ to_ banklimitw step)
      else some (doDmaTail h e tr location from_ to_ len step)

/-- The decoding of a descriptor in the software replay of `DMA_flushQueue`
(lines 158-162): `(from, len, step, cmd)`. -/
def unpackInfo (info : DMAOpInfo) : Nat × Nat × Int × Nat :=
  let len := ((info.regLen &&& 0xFF) ||| ((info.regLen &&& 0xFF0000) >>> 8)) % 0x10000
  let step : Int := ((info.regAddrMStep &&& 0xFF : Nat) : Int)
  let from_ := (((info.regAddrMStep &&& 0xFF0000) >>> 7)
    ||| (((info.regAddrHAddrL &&& 0x7F00FF) <<< 1) % 0x100000000))
  let cmd := info.regCtrlWrite &&& 0xFFFFFF7F
  (from_, len, step, cmd)

/-- The software replay loop of `DMA_flushQueue` (lines 154-169) over the
descriptors `ds`. -/
def flushSoftware (e : Env) : List HwEvent → List DMAOpInfo → List HwEvent
  | tr, [] => tr
  | tr, info :: rest =>
    let u := unpackInfo info
    flushSoftware e (DMA_doSoftwareCopyDirect e tr u.2.2.2 u.1 u.2.1 u.2.2.1) rest

/-- Modelled from the spec: the assembly routine `flushQueue(num)` is not among
the sources.  Section 4.2 step 4 and the reference version kept in a comment
(lines 199-213) say that it writes the four command words of each of the first
`num` descriptors, in order, as 32-bit writes to the control port. -/
def flushQueue (ds : List DMAOpInfo) : List HwEvent :=
  ds.flatMap (fun d => [HwEvent.ctrlL d.regLen, HwEvent.ctrlL d.regAddrMStep,
    HwEvent.ctrlL d.regAddrHAddrL, HwEvent.ctrlL d.regCtrlWrite])

/-- Modelled from the spec: the assembly routine `flushQueueSafe(num,
z80restore)` is not among the sources.  Section 5 and the reference version
kept in a comment (lines 215-244) say that for each descriptor it writes the
first three words, halts the Z80, restores it, and then writes the trigger
word. -/
def flushQueueSafe (ds : List DMAOpInfo) (z80restore : Nat) : List HwEvent :=
  ds.flatMap (fun d => [HwEvent.ctrlL d.regLen, HwEvent.ctrlL d.regAddrMStep,
    HwEvent.ctrlL d.regAddrHAddrL, HwEvent.z80Halt 0x0100, HwEvent.z80Halt z80restore,
    HwEvent.ctrlL d.regCtrlWrite])

/-- `DMA_flushQueue` (lines 117-197) as a sequence of hardware accesses
appended to `tr`; the descriptors replayed and the state afterwards are those
of `DMA_flushQueue`. -/
def flushEvents (e : Env) (s : DMAState) (tr : List HwEvent) : List HwEvent :=
  let ds := (DMA_flushQueue s).replayed
  let tr1 := tr ++ [HwEvent.waitDMACompletion]
  let autoInc := e.VDP_getAutoInc tr1
  let tr2 := tr1 ++ [HwEvent.getAutoInc]
  let tr3 :=
    if e.DMA_DISABLED then flushSoftware e tr2 ds
    else
      let z80restore := if e.Z80_isBusTaken tr2 then 0x0100 else 0x0000
      if e.HALT_Z80_ON_DMA then
        tr2 ++ [HwEvent.z80Halt 0x0100] ++ flushQueue ds ++ [HwEvent.z80Halt z80restore]
      else tr2 ++ flushQueueSafe ds z80restore
  tr3 ++ [HwEvent.setAutoInc (autoInc : Int)]

/-- Repeats `n` times the same request. -/
def sameRequests (n : Nat) (r : Request) : List Request := List.replicate n r

/-- Modelled from the spec: the collaborators of section 6
(`isSecondaryBusTaken`, `getAddressStep`) and the `GFX_WRITE_*_ADDR` macros are
not among the sources.  This instance fixes one choice, used only to evaluate
examples: hardware build, Z80 bus never taken, auto-increment 2, memory all
zero; `halt` chooses `HALT_Z80_ON_DMA`. -/
def sampleEnv (halt : Bool) : Env :=
  { Z80_isBusTaken := fun _ => false
    VDP_getAutoInc := fun _ => 2
    readWord := fun _ => 0
    GFX_WRITE_VRAM_ADDR := fun adr =>
      (((0x4000 + (adr &&& 0x3FFF)) <<< 16) + (adr >>> 14)) % 0x100000000
    GFX_WRITE_CRAM_ADDR := fun adr =>
      (((0xC000 + (adr &&& 0x3FFF)) <<< 16) + (adr >>> 14)) % 0x100000000
    GFX_WRITE_VSRAM_ADDR := fun adr =>
      (((0x4000 + (adr &&& 0x3FFF)) <<< 16) + ((adr >>> 14) ||| 0x10)) % 0x100000000
    GFX_DMA_VRAMCOPY_ADDR := fun adr =>
      (((0x0000 + (adr &&& 0x3FFF)) <<< 16) + ((adr >>> 14) ||| 0xC0)) % 0x100000000
    DMA_DISABLED := false
    HALT_Z80_ON_DMA := halt }

/-- The word `regLen` of `packInfo` (line 291) for the word length `n`. -/
def regLenWord (n : Nat) : Nat :=
  ((n ||| ((n <<< 8) % 0x100000000)) &&& 0xFF00FF) ||| 0x94009300

/-- The word `regAddrMStep` of `packInfo` (line 293) before `step` is added. -/
def regAddrMBase (from_ : Nat) : Nat :=
  (((from_ <<< 7) % 0x100000000) &&& 0xFF0000) ||| 0x96008F00

/-- The word `regAddrHAddrL` of `packInfo` (line 295). -/
def regAddrHLWord (from_ : Nat) : Nat := ((from_ >>> 1) &&& 0x7F00FF) ||| 0x97009500

/-- The states reachable from `DMA_initEx(size, capacity)` by calls of
`DMA_queueDma`, `DMA_clearQueue` and `DMA_flushQueue`. -/
inductive Reachable (h : VdpHeader) (size capacity : Nat) : DMAState → Prop where
  | init (s0 : DMAState) (fresh : Nat → DMAOpInfo) :
      Reachable h size capacity (DMA_initEx s0 fresh size capacity)
  | queue (s : DMAState) (fuel location from_ to_ len step : Nat) (q : QueueResult) :
      Reachable h size capacity s →
      DMA_queueDma h fuel s location from_ to_ len step = some q →
      Reachable h size capacity q.state
  | clear (s : DMAState) :
      Reachable h size capacity s → Reachable h size capacity (DMA_clearQueue s)
  | flush (s : DMAState) :
      Reachable h size capacity s → Reachable h size capacity (DMA_flushQueue s).state

/-- The counters of a queue whose capacity is below 65535: the occupied count
is at most one above the capacity, and the overflow index is 0 or at most the
occupied count. -/
def CountersOk (s : DMAState) : Prop :=
  s.queueSize < 0xFFFF ∧ s.queueIndex ≤ s.queueSize + 1 ∧
    (s.queueIndexLimit = 0 ∨ s.queueIndexLimit ≤ s.queueIndex)

theorem and_bank (x : Nat) : x &&& 0x1FFFF = x % 0x20000 := by
  have h := Nat.and_pow_two_sub_one_eq_mod x 17
  norm_num at h
  exact h

theorem shr_one (x : Nat) : x >>> 1 = x / 2 := by
  simp [Nat.shiftRight_eq_div_pow]

theorem shl_one (x : Nat) : x <<< 1 = 2 * x := by
  simp [Nat.shiftLeft_eq, Nat.mul_comm]

section tail
variable (h : VdpHeader) (s : DMAState) (location from_ to_ newlen step : Nat)
  (acc : List Stored)

theorem queueTail_stored :
    (queueTail h s location from_ to_ newlen step acc).stored
      = acc ++ [tailWrite h s location from_ to_ newlen step] := by
  unfold queueTail tailWrite
  simp only []
  split_ifs <;> rfl

theorem queueTail_queueIndex :
    (queueTail h s location from_ to_ newlen step acc).state.queueIndex
      = (s.queueIndex + 1) % 0x10000 := by
  unfold queueTail
  simp only []
  split_ifs <;> rfl

theorem queueTail_queueSize :
    (queueTail h s location from_ to_ newlen step acc).state.queueSize = s.queueSize := by
  unfold queueTail
  simp only []
  split_ifs <;> rfl

theorem queueTail_flag :
    (queueTail h s location from_ to_ newlen step acc).state.flag = s.flag := by
  unfold queueTail
  simp only []
  split_ifs <;> rfl

theorem queueTail_maxTransferPerFrame :
    (queueTail h s location from_ to_ newlen step acc).state.maxTransferPerFrame
      = s.maxTransferPerFrame := by
  unfold queueTail
  simp only []
  split_ifs <;> rfl

theorem queueTail_queueTransferSize :
    (queueTail h s location from_ to_ newlen step acc).state.queueTransferSize
      = (s.queueTransferSize + (2 * newlen) % 0x100000000) % 0x100000000 := by
  unfold queueTail
  simp only [shl_one]
  split_ifs <;> rfl

theorem queueTail_dmaQueues :
    (queueTail h s location from_ to_ newlen step acc).state.dmaQueues
      = Function.update s.dmaQueues s.queueIndex
          (packInfo h (s.dmaQueues s.queueIndex) location from_ to_ newlen step) := by
  unfold queueTail
  simp only []
  split_ifs <;> rfl

theorem queueTail_ret :
    (queueTail h s location from_ to_ newlen step acc).ret
      = if overBudget s newlen ∧ s.flag &&& DMA_OVERCAPACITY_IGNORE ≠ 0 then false
        else true := by
  unfold queueTail overBudget
  simp only [shl_one]
  by_cases ha : s.flag &&& DMA_AUTOFLUSH = 0 <;>
  by_cases hb : s.maxTransferPerFrame ≠ 0 ∧
      (s.queueTransferSize + (2 * newlen) % 0x100000000) % 0x100000000
        > s.maxTransferPerFrame <;>
  by_cases hc : s.queueIndexLimit = 0 <;>
  by_cases hd : s.flag &&& DMA_OVERCAPACITY_IGNORE = 0 <;>
  simp only [ha, hb, hc, hd, if_true, if_false, ne_eq, not_true_eq_false, not_false_eq_true,
    and_true, and_false, true_and, false_and]

theorem queueTail_queueIndexLimit :
    (queueTail h s location from_ to_ newlen step acc).state.queueIndexLimit
      = if overBudget s newlen ∧ s.queueIndexLimit = 0 then
          ((s.queueIndex + 1) % 0x10000 + 0x10000 - 1) % 0x10000
        else s.queueIndexLimit := by
  unfold queueTail overBudget
  simp only [shl_one]
  by_cases ha : s.flag &&& DMA_AUTOFLUSH = 0 <;>
  by_cases hb : s.maxTransferPerFrame ≠ 0 ∧
      (s.queueTransferSize + (2 * newlen) % 0x100000000) % 0x100000000
        > s.maxTransferPerFrame <;>
  by_cases hc : s.queueIndexLimit = 0 <;>
  by_cases hd : s.flag &&& DMA_OVERCAPACITY_IGNORE = 0 <;>
  simp only [ha, hb, hc, hd, if_true, if_false, ne_eq, not_true_eq_false, not_false_eq_true,
    and_true, and_false, true_and, false_and]

end tail

section unfold
variable (h : VdpHeader) (fuel : Nat) (s : DMAState) (location from_ to_ len step : Nat)

theorem DMA_queueDma_full (hfull : s.queueIndex ≥ s.queueSize) :
    DMA_queueDma h (fuel + 1) s location from_ to_ len step = some ⟨s, false, []⟩ := by
  rw [DMA_queueDma]
  simp [hfull]

theorem DMA_queueDma_nosplit (hroom : s.queueIndex < s.queueSize)
    (hfit : len ≤ (0x20000 - from_ % 0x20000) / 2) :
    DMA_queueDma h (fuel + 1) s location from_ to_ len step
      = some (queueTail h s location from_ to_ len step []) := by
  rw [DMA_queueDma]
  simp only [and_bank, shr_one]
  rw [if_neg (by omega), if_neg (by omega)]

theorem highFrom_aligned : highFrom from_ % 0x20000 = 0 := by
  unfold highFrom
  omega

theorem DMA_queueDma_split (hroom : s.queueIndex < s.queueSize)
    (hcross : len > (0x20000 - from_ % 0x20000) / 2) :
    DMA_queueDma h (fuel + 2) s location from_ to_ len step
      = some (queueTail h
          (queueTail h s location (highFrom from_) (highTo from_ to_) (highLen from_ len)
            step []).state
          location from_ to_ ((0x20000 - from_ % 0x20000) / 2) step
          (queueTail h s location (highFrom from_) (highTo from_ to_) (highLen from_ len)
            step []).stored) := by
  rw [DMA_queueDma]
  simp only [and_bank, shr_one]
  rw [if_neg (by omega), if_pos hcross]
  have hin := DMA_queueDma_nosplit h fuel s location (highFrom from_) (highTo from_ to_)
    (highLen from_ len) step hroom (by rw [highFrom_aligned]; unfold highLen; omega)
  unfold highFrom highTo highLen at hin
  rw [hin]
  rfl

theorem DMA_queueDma_split_one (hroom : s.queueIndex < s.queueSize)
    (hcross : len > (0x20000 - from_ % 0x20000) / 2) :
    DMA_queueDma h 1 s location from_ to_ len step = none := by
  rw [DMA_queueDma]
  simp only [and_bank, shr_one]
  rw [if_neg (by omega), if_pos hcross]
  rfl

end unfold

/-! ## Bank splitting -/

/-- C1: on a queue with room, every descriptor that `DMA_queueDma` writes is
packed from a source address and a word length that stay inside one 128 KB
source bank: `(from mod 0x20000) + 2 * newlen <= 0x20000`.  This covers the
single descriptor of an unsplit request and both descriptors of a split one. -/
theorem queueDma_descriptor_within_bank (h : VdpHeader) (s : DMAState)
    (location from_ to_ len step : Nat) (hroom : s.queueIndex < s.queueSize) :
    ∃ r, (∀ fuel, DMA_queueDma h (fuel + 2) s location from_ to_ len step = some r) ∧
      r.stored ≠ [] ∧
      ∀ w ∈ r.stored,
        (∃ old, w.info = packInfo h old location w.from_ w.to_ w.newlen step) ∧
          w.from_ % 0x20000 + 2 * w.newlen ≤ 0x20000 := by
  by_cases hcross : len > (0x20000 - from_ % 0x20000) / 2
  · refine ⟨_, fun fuel => DMA_queueDma_split h fuel s location from_ to_ len step hroom hcross,
      ?_, ?_⟩
    · simp [queueTail_stored]
    · intro w hw
      simp only [queueTail_stored, List.nil_append, List.cons_append, List.mem_cons,
        List.mem_singleton, List.not_mem_nil, or_false] at hw
      have hal := highFrom_aligned from_
      rcases hw with rfl | rfl
      · refine ⟨⟨_, rfl⟩, ?_⟩
        simp only [tailWrite]
        unfold highLen
        omega
      · refine ⟨⟨_, rfl⟩, ?_⟩
        simp only [tailWrite]
        omega
  · refine ⟨_, fun fuel => DMA_queueDma_nosplit h (fuel + 1) s location from_ to_ len step hroom
      (by omega), ?_, ?_⟩
    · simp [queueTail_stored]
    · intro w hw
      simp only [queueTail_stored, List.nil_append, List.mem_singleton] at hw
      subst hw
      refine ⟨⟨_, rfl⟩, ?_⟩
      simp only [tailWrite]
      omega

/-- Witness for C1: a 5-word request starting 4 bytes below a bank boundary. -/
theorem queueDma_descriptor_within_bank_witness :
    (DMA_initEx powerOn zeroBlock 4 0).queueIndex < (DMA_initEx powerOn zeroBlock 4 0).queueSize ∧
    (DMA_queueDma sampleHeader 2 (DMA_initEx powerOn zeroBlock 4 0) 0 0x1FFFC 0 5 2).map
        (fun r => r.stored.map (fun w => (w.from_, w.newlen)))
      = some [(0x20000, 3), (0x1FFFC, 2)] ∧
    ∃ r, (∀ fuel, DMA_queueDma sampleHeader (fuel + 2) (DMA_initEx powerOn zeroBlock 4 0)
        0 0x1FFFC 0 5 2 = some r) ∧
      r.stored ≠ [] ∧
      ∀ w ∈ r.stored,
        (∃ old, w.info = packInfo sampleHeader old 0 w.from_ w.to_ w.newlen 2) ∧
          w.from_ % 0x20000 + 2 * w.newlen ≤ 0x20000 :=
  ⟨by decide, by decide,
    queueDma_descriptor_within_bank sampleHeader (DMA_initEx powerOn zeroBlock 4 0)
      0 0x1FFFC 0 5 2 (by decide)⟩

/-- C2: a request of 16-bit length that crosses the bank boundary, on a queue
with at least two free slots, stores exactly two descriptors: the call needs
one nested call (depth bound 1 is too small, depth bound 2 and every larger
one give the same result), the occupied count grows by 2, and the two word
lengths sum to `len`.  A request that does not cross, on a queue with room,
stores exactly one descriptor, of length `len`. -/
theorem queueDma_split_two_descriptors (h : VdpHeader) (s : DMAState)
    (location from_ to_ len step : Nat) (hlen : len < 0x10000)
    (hsize : s.queueSize < 0x10000) :
    (len > (0x20000 - from_ % 0x20000) / 2 → s.queueIndex + 2 ≤ s.queueSize →
      DMA_queueDma h 1 s location from_ to_ len step = none ∧
      ∃ r hi lo, (∀ fuel, DMA_queueDma h (fuel + 2) s location from_ to_ len step = some r) ∧
        r.stored = [hi, lo] ∧ r.state.queueIndex = s.queueIndex + 2 ∧
        hi.slot = s.queueIndex ∧ lo.slot = s.queueIndex + 1 ∧
        hi.newlen + lo.newlen = len) ∧
    (len ≤ (0x20000 - from_ % 0x20000) / 2 → s.queueIndex < s.queueSize →
      ∃ r w, (∀ fuel, DMA_queueDma h (fuel + 1) s location from_ to_ len step = some r) ∧
        r.stored = [w] ∧ r.state.queueIndex = s.queueIndex + 1 ∧
        w.slot = s.queueIndex ∧ w.newlen = len) := by
  constructor
  · intro hcross hfree
    refine ⟨DMA_queueDma_split_one h s location from_ to_ len step (by omega) hcross,
      _, tailWrite h s location (highFrom from_) (highTo from_ to_) (highLen from_ len) step,
      tailWrite h (queueTail h s location (highFrom from_) (highTo from_ to_)
        (highLen from_ len) step []).state location from_ to_
        ((0x20000 - from_ % 0x20000) / 2) step,
      fun fuel => DMA_queueDma_split h fuel s location from_ to_ len step (by omega) hcross,
      ?_, ?_, ?_, ?_, ?_⟩
    · simp only [queueTail_stored, List.nil_append, List.cons_append]
    · simp only [queueTail_queueIndex]
      omega
    · simp only [tailWrite]
    · simp only [tailWrite, queueTail_queueIndex]
      omega
    · simp only [tailWrite]
      unfold highLen
      omega
  · intro hfit hroom
    refine ⟨_, tailWrite h s location from_ to_ len step,
      fun fuel => DMA_queueDma_nosplit h fuel s location from_ to_ len step hroom hfit,
      ?_, ?_, ?_, ?_⟩
    · simp only [queueTail_stored, List.nil_append]
    · simp only [queueTail_queueIndex]
      omega
    · simp only [tailWrite]
    · simp only [tailWrite]

/-- Witness for C2: on an empty 4-slot queue, a 5-word request starting 4
bytes below a bank boundary crosses, and a 5-word request at address 0 does
not. -/
theorem queueDma_split_two_descriptors_witness :
    ((5 : Nat) < 0x10000 ∧ (DMA_initEx powerOn zeroBlock 4 0).queueSize < 0x10000) ∧
    (DMA_queueDma sampleHeader 1 (DMA_initEx powerOn zeroBlock 4 0) 0 0x1FFFC 0 5 2 = none ∧
      ∃ r hi lo, (∀ fuel, DMA_queueDma sampleHeader (fuel + 2)
          (DMA_initEx powerOn zeroBlock 4 0) 0 0x1FFFC 0 5 2 = some r) ∧
        r.stored = [hi, lo] ∧
        r.state.queueIndex = (DMA_initEx powerOn zeroBlock 4 0).queueIndex + 2 ∧
        hi.slot = (DMA_initEx powerOn zeroBlock 4 0).queueIndex ∧
        lo.slot = (DMA_initEx powerOn zeroBlock 4 0).queueIndex + 1 ∧
        hi.newlen + lo.newlen = 5) ∧
    (∃ r w, (∀ fuel, DMA_queueDma sampleHeader (fuel + 1)
          (DMA_initEx powerOn zeroBlock 4 0) 0 0 0 5 2 = some r) ∧
        r.stored = [w] ∧
        r.state.queueIndex = (DMA_initEx powerOn zeroBlock 4 0).queueIndex + 1 ∧
        w.slot = (DMA_initEx powerOn zeroBlock 4 0).queueIndex ∧ w.newlen = 5) :=
  ⟨⟨by decide, by decide⟩,
    (queueDma_split_two_descriptors sampleHeader (DMA_initEx powerOn zeroBlock 4 0)
      0 0x1FFFC 0 5 2 (by decide) (by decide)).1 (by decide) (by decide),
    (queueDma_split_two_descriptors sampleHeader (DMA_initEx powerOn zeroBlock 4 0)
      0 0 0 5 2 (by decide) (by decide)).2 (by decide) (by decide)⟩

/-! ## Capacity -/

/-- C3: evaluation at the failing input.  On a queue of capacity 1
(`DMA_initEx(1, 0)`) the request `from = 0x1FFFE`, `len = 2` crosses the bank
boundary; the nested call fills slot 0, and the outer call then writes slot 1
without testing the capacity again, leaving `queueIndex = 2 > queueSize = 1`. -/
theorem queueDma_split_overruns_capacity :
    ∃ r, DMA_queueDma sampleHeader 2 (DMA_initEx powerOn zeroBlock 1 0) 0 0x1FFFE 0 2 2 = some r ∧
      r.state.queueSize = 1 ∧ r.state.queueIndex = 2 ∧
      r.stored.map (fun w => w.slot) = [0, 1] ∧
      ¬ (r.state.queueIndex ≤ r.state.queueSize) ∧
      ¬ (∀ w ∈ r.stored, w.slot < r.state.queueSize) :=
  ⟨_, rfl, by decide, by decide, by decide, by decide, by decide⟩

/-- C4: a call on a full queue (`queueIndex >= queueSize`) returns FALSE,
writes no descriptor, and leaves the whole state as it was: occupied count,
overflow index, running total, every slot, and `VIntProcess`. -/
theorem queueDma_full_rejected (h : VdpHeader) (fuel : Nat) (s : DMAState)
    (location from_ to_ len step : Nat) (hfull : s.queueIndex ≥ s.queueSize) :
    DMA_queueDma h (fuel + 1) s location from_ to_ len step = some ⟨s, false, []⟩ :=
  DMA_queueDma_full h fuel s location from_ to_ len step hfull

/-- Witness for C4: after four accepted 10-word transfers on a queue of
capacity 4 the fifth call returns FALSE and the count stays 4. -/
theorem queueDma_full_rejected_witness :
    (fourQueued.queueIndex ≥ fourQueued.queueSize ∧ fourQueued.queueIndex = 4) ∧
    (runQueue sampleHeader 2 (DMA_initEx powerOn zeroBlock 4 0)
      [⟨0, 0x1000, 0, 10, 2⟩, ⟨0, 0x2000, 0x20, 10, 2⟩, ⟨0, 0x3000, 0x40, 10, 2⟩,
        ⟨0, 0x4000, 0x60, 10, 2⟩, ⟨0, 0x5000, 0x80, 10, 2⟩]).map
        (fun x => (x.1.queueIndex, x.2.1)) = some (4, [true, true, true, true, false]) ∧
    DMA_queueDma sampleHeader 2 fourQueued 0 0x5000 0x80 10 2 = some ⟨fourQueued, false, []⟩ :=
  ⟨⟨by decide, by decide⟩, by decide,
    queueDma_full_rejected sampleHeader 1 fourQueued 0 0x5000 0x80 10 2 (by decide)⟩

/-! ## Per-frame budget -/

/-- C5: evaluation at the failing input.  With budget 100 and
ignore-over-capacity enabled, a single 60-word (120-byte) request on the
cleared queue crosses the budget at slot 0, so line 345 stores
`queueIndexLimit = 0`, which `DMA_flushQueue` reads as "no limit reached": the
flush replays that descriptor, 120 bytes, more than the budget. -/
theorem flush_exceeds_budget_at_slot_zero :
    ∃ r, DMA_queueDma sampleHeader 2 budget100 0 0 0 60 2 = some r ∧
      r.state.maxTransferPerFrame = 100 ∧
      DMA_getIgnoreOverCapacity r.state = true ∧
      r.state.queueIndexLimit = 0 ∧
      (DMA_flushQueue r.state).replayed = r.stored.map (fun w => w.info) ∧
      storedBytes r.stored = 120 ∧
      ¬ (storedBytes r.stored ≤ r.state.maxTransferPerFrame) :=
  ⟨_, rfl, by decide, by decide, by decide, by decide, by decide, by decide⟩

/-- C6: evaluation at the failing input.  With budget 100 and
ignore-over-capacity enabled, the 60-word request on the cleared queue returns
FALSE, and the next flush replays its descriptor all the same.  Likewise a
60-word request that starts 64 bytes below a bank boundary returns FALSE while
its high-address segment (28 words, slot 0) is replayed. -/
theorem false_return_still_replayed :
    (∃ r, DMA_queueDma sampleHeader 2 budget100 0 0 0 60 2 = some r ∧
      r.ret = false ∧ r.stored.length = 1 ∧
      (DMA_flushQueue r.state).replayed = r.stored.map (fun w => w.info)) ∧
    (∃ r, DMA_queueDma sampleHeader 2 budget100 0 0x1FFC0 0 60 2 = some r ∧
      r.ret = false ∧ r.stored.map (fun w => (w.slot, w.from_, w.newlen))
        = [(0, 0x20000, 28), (1, 0x1FFC0, 32)] ∧
      r.state.queueIndexLimit = 1 ∧
      (DMA_flushQueue r.state).replayed = (r.stored.take 1).map (fun w => w.info)) :=
  ⟨⟨_, rfl, by decide, by decide, by decide⟩,
    ⟨_, rfl, by decide, by decide, by decide, by decide⟩⟩

/-- C7: evaluation at the failing input.  With budget 100, the first call (60
words) already brings the total to 120 bytes, above the budget, but leaves the
overflow index at 0; the index becomes nonzero only at the second call (1
word), which stores 1. -/
theorem overflow_index_set_late :
    ∃ r1 r2, DMA_queueDma sampleHeader 2 budget100 0 0 0 60 2 = some r1 ∧
      DMA_queueDma sampleHeader 2 r1.state 0 0x1000 0x100 1 2 = some r2 ∧
      budget100.queueIndexLimit = 0 ∧ budget100.queueTransferSize = 0 ∧
      r1.state.queueTransferSize = 120 ∧
      r1.state.queueTransferSize > r1.state.maxTransferPerFrame ∧
      r1.state.queueIndexLimit = 0 ∧
      r2.state.queueIndexLimit = 1 :=
  ⟨_, _, rfl, rfl, by decide, by decide, by decide, by decide, by decide, by decide⟩

/-! ## Running byte total -/

theorem storedBytes_nil : storedBytes [] = 0 := rfl

theorem storedBytes_append (a b : List Stored) :
    storedBytes (a ++ b) = storedBytes a + storedBytes b := by
  simp [storedBytes]

theorem storedBytes_single (w : Stored) : storedBytes [w] = 2 * w.newlen := by
  simp [storedBytes]

/-- One accepted call: the total grows by `2 * len` modulo `2^32`, and the
descriptors written carry `2 * len` bytes in all. -/
theorem queueDma_total_step (h : VdpHeader) (s : DMAState)
    (location from_ to_ len step : Nat) (hlen : len < 0x10000)
    (hroom : s.queueIndex < s.queueSize) :
    ∃ r, (∀ fuel, DMA_queueDma h (fuel + 2) s location from_ to_ len step = some r) ∧
      r.state.queueTransferSize = (s.queueTransferSize + 2 * len) % 0x100000000 ∧
      storedBytes r.stored = 2 * len := by
  by_cases hcross : len > (0x20000 - from_ % 0x20000) / 2
  · refine ⟨_, fun fuel => DMA_queueDma_split h fuel s location from_ to_ len step hroom hcross,
      ?_, ?_⟩
    · simp only [queueTail_queueTransferSize]
      unfold highLen
      omega
    · simp only [queueTail_stored, List.nil_append, storedBytes_append, storedBytes_single,
        tailWrite]
      unfold highLen
      omega
  · refine ⟨_, fun fuel => DMA_queueDma_nosplit h (fuel + 1) s location from_ to_ len step hroom
      (by omega), ?_, ?_⟩
    · simp only [queueTail_queueTransferSize]
      omega
    · simp only [queueTail_stored, List.nil_append, storedBytes_single, tailWrite]

/-- Any call, accepted or rejected as full, on a state whose total fits 32
bits: the total grows by the bytes of the descriptors written, modulo `2^32`. -/
theorem queueDma_total_any (h : VdpHeader) (s : DMAState)
    (location from_ to_ len step : Nat) (hlen : len < 0x10000)
    (htot : s.queueTransferSize < 0x100000000) :
    ∃ r, (∀ fuel, DMA_queueDma h (fuel + 2) s location from_ to_ len step = some r) ∧
      r.state.queueTransferSize
        = (s.queueTransferSize + storedBytes r.stored) % 0x100000000 := by
  by_cases hroom : s.queueIndex < s.queueSize
  · obtain ⟨r, hr, ht, hb⟩ := queueDma_total_step h s location from_ to_ len step hlen hroom
    exact ⟨r, hr, by rw [ht, hb]⟩
  · refine ⟨_, fun fuel => DMA_queueDma_full h (fuel + 1) s location from_ to_ len step
      (by omega), ?_⟩
    simp only [storedBytes_nil]
    omega

/-- A run of calls on a state whose total fits 32 bits: the final total is the
initial one plus the bytes of all descriptors written, modulo `2^32`. -/
theorem runQueue_total (h : VdpHeader) (reqs : List Request) :
    ∀ s : DMAState, s.queueTransferSize < 0x100000000 →
      (∀ r ∈ reqs, r.len < 0x10000) →
      ∃ res, (∀ fuel, runQueue h (fuel + 2) s reqs = some res) ∧
        res.1.queueTransferSize
          = (s.queueTransferSize + storedBytes res.2.2) % 0x100000000 := by
  induction reqs with
  | nil =>
    intro s htot _
    refine ⟨(s, [], []), fun fuel => rfl, ?_⟩
    simp only [storedBytes_nil]
    omega
  | cons r rs ih =>
    intro s htot hin
    obtain ⟨q, hq, hqt⟩ := queueDma_total_any h s r.location r.from_ r.to_ r.len r.step
      (hin r (List.mem_cons_self r rs)) htot
    have hq32 : q.state.queueTransferSize < 0x100000000 := by
      rw [hqt]
      omega
    obtain ⟨res, hres, hrt⟩ := ih q.state hq32
      (fun x hx => hin x (List.mem_cons_of_mem r hx))
    refine ⟨(res.1, q.ret :: res.2.1, q.stored ++ res.2.2), fun fuel => ?_, ?_⟩
    · simp only [runQueue, hq fuel, hres fuel]
    · simp only [storedBytes_append]
      rw [hrt, hqt]
      omega

/-- C9: every call that is not rejected as queue-full grows the running byte
total by `2 * len`, split or not (modulo `2^32`, hence exactly when the sum
stays below `2^32`); and after any run of calls on a queue whose total was 0,
`DMA_getQueueTransferSize` is the sum of `2 * newlen` over the descriptors
written, as long as that sum stays below `2^32`. -/
theorem queueTransferSize_is_stored_bytes (h : VdpHeader) :
    (∀ (s : DMAState) (location from_ to_ len step : Nat),
      len < 0x10000 → s.queueIndex < s.queueSize →
      ∃ r, (∀ fuel, DMA_queueDma h (fuel + 2) s location from_ to_ len step = some r) ∧
        r.state.queueTransferSize = (s.queueTransferSize + 2 * len) % 0x100000000 ∧
        (s.queueTransferSize + 2 * len < 0x100000000 →
          r.state.queueTransferSize = s.queueTransferSize + 2 * len) ∧
        storedBytes r.stored = 2 * len) ∧
    (∀ (s : DMAState) (reqs : List Request),
      s.queueTransferSize = 0 → (∀ r ∈ reqs, r.len < 0x10000) →
      ∃ res, (∀ fuel, runQueue h (fuel + 2) s reqs = some res) ∧
        (storedBytes res.2.2 < 0x100000000 →
          DMA_getQueueTransferSize res.1 = storedBytes res.2.2)) := by
  constructor
  · intro s location from_ to_ len step hlen hroom
    obtain ⟨r, hr, ht, hb⟩ := queueDma_total_step h s location from_ to_ len step hlen hroom
    exact ⟨r, hr, ht, fun hno => by rw [ht]; omega, hb⟩
  · intro s reqs hclr hin
    obtain ⟨res, hres, hrt⟩ := runQueue_total h reqs s (by omega) hin
    refine ⟨res, hres, fun hno => ?_⟩
    unfold DMA_getQueueTransferSize
    rw [hrt, hclr]
    omega

/-- Witness for C9: a crossing 5-word request on an empty queue, and a run of
three requests (the second one crossing) on the cleared queue. -/
theorem queueTransferSize_is_stored_bytes_witness :
    ((5 : Nat) < 0x10000 ∧
      (DMA_initEx powerOn zeroBlock 4 0).queueIndex < (DMA_initEx powerOn zeroBlock 4 0).queueSize ∧
      (DMA_initEx powerOn zeroBlock 4 0).queueTransferSize = 0 ∧
      ∀ r ∈ [(⟨0, 0x1000, 0, 10, 2⟩ : Request), ⟨0, 0x1FFFC, 0x20, 5, 2⟩, ⟨1, 0x3000, 0, 16, 2⟩],
        r.len < 0x10000) ∧
    (runQueue sampleHeader 2 (DMA_initEx powerOn zeroBlock 4 0)
        [⟨0, 0x1000, 0, 10, 2⟩, ⟨0, 0x1FFFC, 0x20, 5, 2⟩, ⟨1, 0x3000, 0, 16, 2⟩]).map
        (fun x => (DMA_getQueueTransferSize x.1, storedBytes x.2.2, x.2.2.length))
      = some (62, 62, 4) ∧
    (∃ r, (∀ fuel, DMA_queueDma sampleHeader (fuel + 2) (DMA_initEx powerOn zeroBlock 4 0)
          0 0x1FFFC 0 5 2 = some r) ∧
        r.state.queueTransferSize
          = ((DMA_initEx powerOn zeroBlock 4 0).queueTransferSize + 2 * 5) % 0x100000000 ∧
        ((DMA_initEx powerOn zeroBlock 4 0).queueTransferSize + 2 * 5 < 0x100000000 →
          r.state.queueTransferSize
            = (DMA_initEx powerOn zeroBlock 4 0).queueTransferSize + 2 * 5) ∧
        storedBytes r.stored = 2 * 5) ∧
    (∃ res, (∀ fuel, runQueue sampleHeader (fuel + 2) (DMA_initEx powerOn zeroBlock 4 0)
          [⟨0, 0x1000, 0, 10, 2⟩, ⟨0, 0x1FFFC, 0x20, 5, 2⟩, ⟨1, 0x3000, 0, 16, 2⟩] = some res) ∧
        (storedBytes res.2.2 < 0x100000000 →
          DMA_getQueueTransferSize res.1 = storedBytes res.2.2)) :=
  ⟨⟨by decide, by decide, by decide, by decide⟩, by decide,
    (queueTransferSize_is_stored_bytes sampleHeader).1 (DMA_initEx powerOn zeroBlock 4 0)
      0 0x1FFFC 0 5 2 (by decide) (by decide),
    (queueTransferSize_is_stored_bytes sampleHeader).2 (DMA_initEx powerOn zeroBlock 4 0)
      [⟨0, 0x1000, 0, 10, 2⟩, ⟨0, 0x1FFFC, 0x20, 5, 2⟩, ⟨1, 0x3000, 0, 16, 2⟩]
      (by decide) (by decide)⟩

/-! ## Return value -/

theorem getIgnoreOverCapacity_iff (s : DMAState) :
    DMA_getIgnoreOverCapacity s = true ↔ s.flag &&& DMA_OVERCAPACITY_IGNORE ≠ 0 := by
  unfold DMA_getIgnoreOverCapacity
  split_ifs with hc
  · simp [hc]
  · simp [hc]

theorem queueTail_ret_false_iff (h : VdpHeader) (s : DMAState)
    (location from_ to_ newlen step : Nat) (acc : List Stored) :
    (queueTail h s location from_ to_ newlen step acc).ret = false ↔
      (s.maxTransferPerFrame ≠ 0 ∧
        (queueTail h s location from_ to_ newlen step acc).state.queueTransferSize
          > s.maxTransferPerFrame ∧
        DMA_getIgnoreOverCapacity s = true) := by
  rw [queueTail_ret, queueTail_queueTransferSize, getIgnoreOverCapacity_iff]
  unfold overBudget
  split_ifs with hc
  · simp only [true_iff]
    exact ⟨hc.1.1, hc.1.2, hc.2⟩
  · constructor
    · intro hf
      exact absurd hf (by decide)
    · intro hr
      exact absurd ⟨⟨hr.1, hr.2.1⟩, hr.2.2⟩ hc

theorem queueTail_slot_written (h : VdpHeader) (s : DMAState)
    (location from_ to_ newlen step : Nat) (acc : List Stored) :
    (queueTail h s location from_ to_ newlen step acc).state.dmaQueues s.queueIndex
      = (tailWrite h s location from_ to_ newlen step).info := by
  rw [queueTail_dmaQueues]
  simp [tailWrite]

theorem flush_replays_all (s : DMAState) (hoff : DMA_getIgnoreOverCapacity s = false) :
    (DMA_flushQueue s).replayed = (List.range s.queueIndex).map s.dmaQueues := by
  have hz : s.flag &&& DMA_OVERCAPACITY_IGNORE = 0 := by
    by_contra hne
    have := (getIgnoreOverCapacity_iff s).2 hne
    rw [hoff] at this
    exact absurd this (by decide)
  unfold DMA_flushQueue replayCount
  simp [hz]

theorem getIgnoreOverCapacity_congr (s s' : DMAState) (hflag : s'.flag = s.flag) :
    DMA_getIgnoreOverCapacity s' = DMA_getIgnoreOverCapacity s := by
  unfold DMA_getIgnoreOverCapacity
  rw [hflag]

/-- C10: the value returned by `DMA_queueDma`, for every state and request.
It is FALSE exactly when the queue is full at entry, or a nonzero budget is
configured, the running total after storing exceeds it, and
ignore-over-capacity is enabled.  When it is TRUE the descriptors of the call
are in the queue slots they were written to; and whenever
ignore-over-capacity is disabled `DMA_flushQueue` replays every occupied
slot, `0 .. queueIndex - 1`. -/
theorem queueDma_return_value (h : VdpHeader) (s : DMAState)
    (location from_ to_ len step : Nat) :
    ∃ r, (∀ fuel, DMA_queueDma h (fuel + 2) s location from_ to_ len step = some r) ∧
      (r.ret = false ↔
        (s.queueIndex ≥ s.queueSize ∨
          (s.maxTransferPerFrame ≠ 0 ∧
            r.state.queueTransferSize > s.maxTransferPerFrame ∧
            DMA_getIgnoreOverCapacity s = true))) ∧
      (r.ret = true →
        r.stored ≠ [] ∧ ∀ w ∈ r.stored, r.state.dmaQueues w.slot = w.info) ∧
      (DMA_getIgnoreOverCapacity s = false →
        (DMA_flushQueue r.state).replayed
          = (List.range r.state.queueIndex).map r.state.dmaQueues) := by
  by_cases hroom : s.queueIndex < s.queueSize
  · by_cases hcross : len > (0x20000 - from_ % 0x20000) / 2
    · refine ⟨_, fun fuel => DMA_queueDma_split h fuel s location from_ to_ len step hroom
        hcross, ?_, ?_, ?_⟩
      · rw [queueTail_ret_false_iff, queueTail_maxTransferPerFrame,
          getIgnoreOverCapacity_congr s _ (queueTail_flag h s location _ _ _ step [])]
        constructor
        · intro hr
          exact Or.inr hr
        · rintro (hfull | hr)
          · omega
          · exact hr
      · intro _
        refine ⟨by simp [queueTail_stored], ?_⟩
        intro w hw
        simp only [queueTail_stored, List.nil_append, List.cons_append, List.mem_cons,
          List.mem_singleton, List.not_mem_nil, or_false] at hw
        rcases hw with rfl | rfl
        · rw [queueTail_dmaQueues, queueTail_dmaQueues, queueTail_queueIndex]
          have hne : s.queueIndex ≠ (s.queueIndex + 1) % 0x10000 := by omega
          simp only [tailWrite]
          rw [Function.update_noteq hne, Function.update_same]
        · exact queueTail_slot_written h _ location from_ to_ _ step _
      · intro hoff
        apply flush_replays_all
        rw [getIgnoreOverCapacity_congr s _ (by rw [queueTail_flag, queueTail_flag])]
        exact hoff
    · refine ⟨_, fun fuel => DMA_queueDma_nosplit h (fuel + 1) s location from_ to_ len step
        hroom (by omega), ?_, ?_, ?_⟩
      · rw [queueTail_ret_false_iff]
        constructor
        · intro hr
          exact Or.inr hr
        · rintro (hfull | hr)
          · omega
          · exact hr
      · intro _
        refine ⟨by simp [queueTail_stored], ?_⟩
        intro w hw
        simp only [queueTail_stored, List.nil_append, List.mem_singleton] at hw
        subst hw
        exact queueTail_slot_written h s location from_ to_ len step []
      · intro hoff
        apply flush_replays_all
        rw [getIgnoreOverCapacity_congr s _ (queueTail_flag h s location from_ to_ len step [])]
        exact hoff
  · refine ⟨_, fun fuel => DMA_queueDma_full h (fuel + 1) s location from_ to_ len step
      (by omega), ?_, ?_, ?_⟩
    · simp only [true_iff]
      exact Or.inl (by omega)
    · intro hf
      exact absurd hf Bool.false_ne_true
    · intro hoff
      exact flush_replays_all s hoff

/-! ## The budget scenario -/

/-- C8, as stated, fails: in the scenario (budget 100, ignore-over-capacity
enabled, three 20-word transfers on the cleared queue) the third call returns
FALSE, but the overflow index recorded is 2, not 1. -/
theorem overflow_scenario_index_not_one :
    (runQueue sampleHeader 2 budget100 threeTransfers).map
        (fun x => (x.2.1, x.1.queueIndexLimit)) = some ([true, true, false], 2) ∧
    ¬ ((runQueue sampleHeader 2 budget100 threeTransfers).map
        (fun x => x.1.queueIndexLimit) = some 1) :=
  ⟨by decide, by decide⟩

/-- C8, amended: on a cleared queue with room for three descriptors, budget
100 bytes and ignore-over-capacity enabled, three successive non-crossing
transfers of 20 words each give: the first two calls return TRUE and the third
FALSE, the overflow index recorded is 2 (the slot of the third descriptor,
the one that crossed the budget), and the following `DMA_flushQueue` replays
exactly the first two descriptors, in order. -/
theorem overflow_scenario (h : VdpHeader) (s : DMAState) (r1 r2 r3 : Request)
    (hclr : s.queueIndex = 0 ∧ s.queueIndexLimit = 0 ∧ s.queueTransferSize = 0)
    (hcap : 3 ≤ s.queueSize)
    (hbud : s.maxTransferPerFrame = 100)
    (hign : DMA_getIgnoreOverCapacity s = true)
    (hlen : r1.len = 20 ∧ r2.len = 20 ∧ r3.len = 20)
    (hfit : 20 ≤ (0x20000 - r1.from_ % 0x20000) / 2 ∧
      20 ≤ (0x20000 - r2.from_ % 0x20000) / 2 ∧
      20 ≤ (0x20000 - r3.from_ % 0x20000) / 2) :
    ∃ s' w1 w2 w3,
      (∀ fuel, runQueue h (fuel + 1) s [r1, r2, r3]
        = some (s', [true, true, false], [w1, w2, w3])) ∧
      s'.queueIndexLimit = 2 ∧
      (DMA_flushQueue s').replayed = [w1.info, w2.info] ∧
      (w1.slot = 0 ∧ w1.from_ = r1.from_ ∧ w1.newlen = 20) ∧
      (w2.slot = 1 ∧ w2.from_ = r2.from_ ∧ w2.newlen = 20) ∧
      (w3.slot = 2 ∧ w3.from_ = r3.from_ ∧ w3.newlen = 20) := by
  obtain ⟨hi0, hl0, ht0⟩ := hclr
  obtain ⟨hlen1, hlen2, hlen3⟩ := hlen
  obtain ⟨hfit1, hfit2, hfit3⟩ := hfit
  have hflag : s.flag &&& DMA_OVERCAPACITY_IGNORE ≠ 0 := (getIgnoreOverCapacity_iff s).1 hign
  obtain ⟨q1, hq1⟩ : ∃ q, q = queueTail h s r1.location r1.from_ r1.to_ r1.len r1.step [] :=
    ⟨_, rfl⟩
  obtain ⟨q2, hq2⟩ :
      ∃ q, q = queueTail h q1.state r2.location r2.from_ r2.to_ r2.len r2.step [] := ⟨_, rfl⟩
  obtain ⟨q3, hq3⟩ :
      ∃ q, q = queueTail h q2.state r3.location r3.from_ r3.to_ r3.len r3.step [] := ⟨_, rfl⟩
  -- the first call
  have i1 : q1.state.queueIndex = 1 := by rw [hq1, queueTail_queueIndex, hi0]
  have z1 : q1.state.queueSize = s.queueSize := by rw [hq1, queueTail_queueSize]
  have m1 : q1.state.maxTransferPerFrame = 100 := by
    rw [hq1, queueTail_maxTransferPerFrame, hbud]
  have f1 : q1.state.flag = s.flag := by rw [hq1, queueTail_flag]
  have t1 : q1.state.queueTransferSize = 40 := by
    rw [hq1, queueTail_queueTransferSize, ht0, hlen1]
  have nb1 : ¬ overBudget s r1.len := by
    unfold overBudget
    rw [ht0, hlen1, hbud]
    decide
  have l1 : q1.state.queueIndexLimit = 0 := by
    rw [hq1, queueTail_queueIndexLimit, if_neg (fun hc => nb1 hc.1), hl0]
  have b1 : q1.ret = true := by
    rw [hq1, queueTail_ret, if_neg (fun hc => nb1 hc.1)]
  -- the second call
  have i2 : q2.state.queueIndex = 2 := by rw [hq2, queueTail_queueIndex, i1]
  have z2 : q2.state.queueSize = s.queueSize := by rw [hq2, queueTail_queueSize, z1]
  have m2 : q2.state.maxTransferPerFrame = 100 := by
    rw [hq2, queueTail_maxTransferPerFrame, m1]
  have f2 : q2.state.flag = s.flag := by rw [hq2, queueTail_flag, f1]
  have t2 : q2.state.queueTransferSize = 80 := by
    rw [hq2, queueTail_queueTransferSize, t1, hlen2]
  have nb2 : ¬ overBudget q1.state r2.len := by
    unfold overBudget
    rw [t1, hlen2, m1]
    decide
  have l2 : q2.state.queueIndexLimit = 0 := by
    rw [hq2, queueTail_queueIndexLimit, if_neg (fun hc => nb2 hc.1), l1]
  have b2 : q2.ret = true := by
    rw [hq2, queueTail_ret, if_neg (fun hc => nb2 hc.1)]
  -- the third call
  have ob3 : overBudget q2.state r3.len := by
    unfold overBudget
    rw [t2, hlen3, m2]
    decide
  have l3 : q3.state.queueIndexLimit = 2 := by
    rw [hq3, queueTail_queueIndexLimit, if_pos ⟨ob3, l2⟩, i2]
  have f3 : q3.state.flag = s.flag := by rw [hq3, queueTail_flag, f2]
  have b3 : q3.ret = false := by
    rw [hq3, queueTail_ret, if_pos ⟨ob3, by rw [f2]; exact hflag⟩]
  -- the three calls take the non-crossing path
  have e1 : ∀ fuel, DMA_queueDma h (fuel + 1) s r1.location r1.from_ r1.to_ r1.len r1.step
      = some q1 := fun fuel => by
    rw [hq1]
    exact DMA_queueDma_nosplit h fuel s _ _ _ _ _ (by omega) (by omega)
  have e2 : ∀ fuel, DMA_queueDma h (fuel + 1) q1.state r2.location r2.from_ r2.to_ r2.len
      r2.step = some q2 := fun fuel => by
    rw [hq2]
    exact DMA_queueDma_nosplit h fuel q1.state _ _ _ _ _ (by omega) (by omega)
  have e3 : ∀ fuel, DMA_queueDma h (fuel + 1) q2.state r3.location r3.from_ r3.to_ r3.len
      r3.step = some q3 := fun fuel => by
    rw [hq3]
    exact DMA_queueDma_nosplit h fuel q2.state _ _ _ _ _ (by omega) (by omega)
  have s1 : q1.stored = [tailWrite h s r1.location r1.from_ r1.to_ r1.len r1.step] := by
    rw [hq1, queueTail_stored, List.nil_append]
  have s2 : q2.stored = [tailWrite h q1.state r2.location r2.from_ r2.to_ r2.len r2.step] := by
    rw [hq2, queueTail_stored, List.nil_append]
  have s3 : q3.stored = [tailWrite h q2.state r3.location r3.from_ r3.to_ r3.len r3.step] := by
    rw [hq3, queueTail_stored, List.nil_append]
  -- the slots after the third call
  have d0 : q3.state.dmaQueues 0
      = (tailWrite h s r1.location r1.from_ r1.to_ r1.len r1.step).info := by
    rw [hq3, queueTail_dmaQueues, i2, Function.update_noteq (by decide),
      hq2, queueTail_dmaQueues, i1, Function.update_noteq (by decide),
      ← hi0, hq1]
    exact queueTail_slot_written h s _ _ _ _ _ _
  have d1 : q3.state.dmaQueues 1
      = (tailWrite h q1.state r2.location r2.from_ r2.to_ r2.len r2.step).info := by
    rw [hq3, queueTail_dmaQueues, i2, Function.update_noteq (by decide), ← i1, hq2]
    exact queueTail_slot_written h q1.state _ _ _ _ _ _
  refine ⟨q3.state, tailWrite h s r1.location r1.from_ r1.to_ r1.len r1.step,
    tailWrite h q1.state r2.location r2.from_ r2.to_ r2.len r2.step,
    tailWrite h q2.state r3.location r3.from_ r3.to_ r3.len r3.step,
    fun fuel => ?_, l3, ?_, ?_, ?_, ?_⟩
  · simp only [runQueue, e1 fuel, e2 fuel, e3 fuel, b1, b2, b3, s1, s2, s3, List.cons_append,
      List.nil_append]
  · unfold DMA_flushQueue replayCount
    rw [l3, f3]
    simp only [ne_eq, OfNat.ofNat_ne_zero, not_false_eq_true, if_true, hflag]
    simp only [List.range_succ, List.range_zero, List.nil_append, List.cons_append,
      List.map_cons, List.map_nil, d0, d1]
  · exact ⟨hi0, rfl, hlen1⟩
  · exact ⟨i1, rfl, hlen2⟩
  · exact ⟨i2, rfl, hlen3⟩

/-- Witness for C8: the scenario on `DMA_initEx(64, 100)` with
ignore-over-capacity enabled. -/
theorem overflow_scenario_witness :
    ((budget100.queueIndex = 0 ∧ budget100.queueIndexLimit = 0 ∧
        budget100.queueTransferSize = 0) ∧
      3 ≤ budget100.queueSize ∧ budget100.maxTransferPerFrame = 100 ∧
      DMA_getIgnoreOverCapacity budget100 = true) ∧
    ∃ s' w1 w2 w3,
      (∀ fuel, runQueue sampleHeader (fuel + 1) budget100
          [⟨0, 0x1000, 0, 20, 2⟩, ⟨0, 0x2000, 0x40, 20, 2⟩, ⟨0, 0x3000, 0x80, 20, 2⟩]
        = some (s', [true, true, false], [w1, w2, w3])) ∧
      s'.queueIndexLimit = 2 ∧
      (DMA_flushQueue s').replayed = [w1.info, w2.info] ∧
      (w1.slot = 0 ∧ w1.from_ = 0x1000 ∧ w1.newlen = 20) ∧
      (w2.slot = 1 ∧ w2.from_ = 0x2000 ∧ w2.newlen = 20) ∧
      (w3.slot = 2 ∧ w3.from_ = 0x3000 ∧ w3.newlen = 20) :=
  ⟨⟨⟨by decide, by decide, by decide⟩, by decide, by decide, by decide⟩,
    overflow_scenario sampleHeader budget100
      ⟨0, 0x1000, 0, 20, 2⟩ ⟨0, 0x2000, 0x40, 20, 2⟩ ⟨0, 0x3000, 0x80, 20, 2⟩
      ⟨by decide, by decide, by decide⟩ (by decide) (by decide) (by decide)
      ⟨rfl, rfl, rfl⟩ ⟨by decide, by decide, by decide⟩⟩

/-! ## Bit-level facts about the packed words -/

theorem eq_of_testBit_lt (k : Nat) {x y : Nat} (hx : x < 2 ^ k) (hy : y < 2 ^ k)
    (hbits : ∀ i, i < k → x.testBit i = y.testBit i) : x = y := by
  apply Nat.eq_of_testBit_eq
  intro i
  by_cases hi : i < k
  · exact hbits i hi
  · have hle : 2 ^ k ≤ 2 ^ i := Nat.pow_le_pow_right (by decide) (by omega)
    rw [Nat.testBit_lt_two_pow (Nat.lt_of_lt_of_le hx hle),
      Nat.testBit_lt_two_pow (Nat.lt_of_lt_of_le hy hle)]

theorem testBit_high (k : Nat) {n : Nat} (hn : n < 2 ^ k) (j : Nat) (hj : k ≤ j) :
    n.testBit j = false :=
  Nat.testBit_lt_two_pow (Nat.lt_of_lt_of_le hn (Nat.pow_le_pow_right (by decide) hj))

theorem add_eq_or_of_low8 (y v : Nat) (hy : y % 256 = 0) (hv : v < 256) : y + v = y ||| v := by
  have e : y = 2 ^ 8 * (y >>> 8) := by
    rw [Nat.shiftRight_eq_div_pow]
    omega
  have hv8 : v < 2 ^ 8 := by omega
  apply Nat.eq_of_testBit_eq
  intro j
  rw [Nat.testBit_or]
  conv_lhs => rw [e]
  rw [Nat.testBit_mul_pow_two_add _ hv8]
  by_cases hj : j < 8
  · rw [if_pos hj]
    have hz : y.testBit j = false := by
      rw [e, Nat.testBit_mul_pow_two]
      simp
      omega
    rw [hz, Bool.false_or]
  · rw [if_neg hj, testBit_high 8 hv8 j (by omega), Bool.or_false, Nat.testBit_shiftRight]
    congr 1
    omega

theorem div_eq_shr16 (x : Nat) : x / 0x10000 = x >>> 16 := by
  simp [Nat.shiftRight_eq_div_pow]

theorem regLenWord_high (n : Nat) (hn : n < 0x10000) :
    regLenWord n / 0x10000 = 0x9400 + ((n >>> 8) &&& 0xFF) := by
  unfold regLenWord
  have hv : (n >>> 8) &&& 0xFF < 2 ^ 8 := Nat.and_lt_two_pow _ (by decide)
  have hb := testBit_high 16 (n := n) (by omega)
  have e3 : (0x100000000 : Nat) = 2 ^ 32 := by norm_num
  rw [add_eq_or_of_low8 _ _ (by decide) (by omega), e3, div_eq_shr16]
  have hx : ((n ||| ((n <<< 8) % 2 ^ 32)) &&& 0xFF00FF) ||| 0x94009300 < 2 ^ 32 :=
    Nat.or_lt_two_pow (Nat.and_lt_two_pow _ (by decide)) (by decide)
  apply eq_of_testBit_lt 16
  · rw [Nat.shiftRight_eq_div_pow]; omega
  · exact Nat.or_lt_two_pow (by decide) (by omega)
  · intro i hi
    simp only [Nat.testBit_shiftRight, Nat.testBit_or, Nat.testBit_and,
      Nat.testBit_mod_two_pow, Nat.testBit_shiftLeft]
    interval_cases i <;> simp [hb] <;> simp [Nat.testBit_to_div_mod]

theorem regLenWord_low (n : Nat) :
    regLenWord n % 0x10000 = 0x9300 + (n &&& 0xFF) := by
  unfold regLenWord
  have hv : n &&& 0xFF < 2 ^ 8 := Nat.and_lt_two_pow _ (by decide)
  have e3 : (0x100000000 : Nat) = 2 ^ 32 := by norm_num
  have e4 : (0x10000 : Nat) = 2 ^ 16 := by norm_num
  rw [add_eq_or_of_low8 _ _ (by decide) (by omega), e3, e4]
  apply eq_of_testBit_lt 16
  · exact Nat.mod_lt _ (by decide)
  · exact Nat.or_lt_two_pow (by decide) (by omega)
  · intro i hi
    simp only [Nat.testBit_shiftRight, Nat.testBit_or, Nat.testBit_and,
      Nat.testBit_mod_two_pow, Nat.testBit_shiftLeft]
    interval_cases i <;> simp [Nat.testBit_to_div_mod]

theorem regAddrMBase_lt (from_ : Nat) : regAddrMBase from_ < 2 ^ 32 :=
  Nat.or_lt_two_pow (Nat.and_lt_two_pow _ (by decide)) (by decide)

theorem regAddrMBase_low (from_ : Nat) : regAddrMBase from_ % 0x10000 = 0x8F00 := by
  unfold regAddrMBase
  have e3 : (0x100000000 : Nat) = 2 ^ 32 := by norm_num
  have e4 : (0x10000 : Nat) = 2 ^ 16 := by norm_num
  rw [e3, e4]
  apply eq_of_testBit_lt 16
  · exact Nat.mod_lt _ (by decide)
  · decide
  · intro i hi
    simp only [Nat.testBit_shiftRight, Nat.testBit_or, Nat.testBit_and,
      Nat.testBit_mod_two_pow, Nat.testBit_shiftLeft]
    interval_cases i <;> simp [Nat.testBit_to_div_mod]

theorem regAddrMBase_high (from_ : Nat) : regAddrMBase from_ / 0x10000 = 0x9600 + ((from_ >>> 9) &&& 0xFF) := by
  have hlt := regAddrMBase_lt from_
  unfold regAddrMBase at hlt ⊢
  have hv : (from_ >>> 9) &&& 0xFF < 2 ^ 8 := Nat.and_lt_two_pow _ (by decide)
  have e3 : (0x100000000 : Nat) = 2 ^ 32 := by norm_num
  rw [add_eq_or_of_low8 _ _ (by decide) (by omega), div_eq_shr16]
  rw [e3] at hlt ⊢
  apply eq_of_testBit_lt 16
  · rw [Nat.shiftRight_eq_div_pow]; omega
  · exact Nat.or_lt_two_pow (by decide) (by omega)
  · intro i hi
    simp only [Nat.testBit_shiftRight, Nat.testBit_or, Nat.testBit_and,
      Nat.testBit_mod_two_pow, Nat.testBit_shiftLeft]
    interval_cases i <;> simp [Nat.testBit_to_div_mod]

theorem regAddrHLWord_lt (from_ : Nat) : regAddrHLWord from_ < 2 ^ 32 :=
  Nat.or_lt_two_pow (Nat.and_lt_two_pow _ (by decide)) (by decide)

theorem regAddrHLWord_high (from_ : Nat) : regAddrHLWord from_ / 0x10000 = 0x9700 + ((from_ >>> 17) &&& 0x7F) := by
  have hlt := regAddrHLWord_lt from_
  unfold regAddrHLWord at hlt ⊢
  have hv : (from_ >>> 17) &&& 0x7F < 2 ^ 7 := Nat.and_lt_two_pow _ (by decide)
  rw [add_eq_or_of_low8 _ _ (by decide) (by omega), div_eq_shr16]
  apply eq_of_testBit_lt 16
  · rw [Nat.shiftRight_eq_div_pow]; omega
  · exact Nat.or_lt_two_pow (by decide) (by omega)
  · intro i hi
    simp only [Nat.testBit_shiftRight, Nat.testBit_or, Nat.testBit_and,
      Nat.testBit_mod_two_pow, Nat.testBit_shiftLeft]
    interval_cases i <;> simp [Nat.testBit_to_div_mod]

theorem regAddrHLWord_low (from_ : Nat) : regAddrHLWord from_ % 0x10000 = 0x9500 + ((from_ >>> 1) &&& 0xFF) := by
  unfold regAddrHLWord
  have hv : (from_ >>> 1) &&& 0xFF < 2 ^ 8 := Nat.and_lt_two_pow _ (by decide)
  have e4 : (0x10000 : Nat) = 2 ^ 16 := by norm_num
  rw [add_eq_or_of_low8 _ _ (by decide) (by omega), e4]
  apply eq_of_testBit_lt 16
  · exact Nat.mod_lt _ (by decide)
  · exact Nat.or_lt_two_pow (by decide) (by omega)
  · intro i hi
    simp only [Nat.testBit_shiftRight, Nat.testBit_or, Nat.testBit_and,
      Nat.testBit_mod_two_pow, Nat.testBit_shiftLeft]
    interval_cases i <;> simp [Nat.testBit_to_div_mod]

theorem unpack_len (n : Nat) (hn : n < 0x10000) :
    ((regLenWord n &&& 0xFF) ||| ((regLenWord n &&& 0xFF0000) >>> 8)) % 0x10000 = n := by
  unfold regLenWord
  have hb := testBit_high 16 (n := n) (by omega)
  have e3 : (0x100000000 : Nat) = 2 ^ 32 := by norm_num
  have e4 : (0x10000 : Nat) = 2 ^ 16 := by norm_num
  rw [e3, e4]
  apply eq_of_testBit_lt 16
  · exact Nat.mod_lt _ (by decide)
  · omega
  · intro i hi
    simp only [Nat.testBit_shiftRight, Nat.testBit_or, Nat.testBit_and,
      Nat.testBit_mod_two_pow, Nat.testBit_shiftLeft]
    interval_cases i <;> simp [hb] <;> simp [Nat.testBit_to_div_mod]

theorem regAddrMStep_eq_or (from_ step : Nat) (hs : step < 256) :
    (regAddrMBase from_ + step) % 0x100000000 = regAddrMBase from_ ||| step := by
  have h1 := regAddrMBase_low from_
  have h2 := regAddrMBase_lt from_
  rw [← add_eq_or_of_low8 _ _ (by omega) hs]
  omega

theorem unpack_step (from_ step : Nat) (hs : step < 256) :
    ((regAddrMBase from_ + step) % 0x100000000) &&& 0xFF = step := by
  have h1 := regAddrMBase_low from_
  have h2 := regAddrMBase_lt from_
  have h := Nat.and_pow_two_sub_one_eq_mod ((regAddrMBase from_ + step) % 0x100000000) 8
  norm_num at h
  rw [h]
  omega

theorem unpack_from (from_ step : Nat) (hs : step < 256) (hf : from_ < 0x1000000)
    (heven : from_ % 2 = 0) :
    ((((regAddrMBase from_ + step) % 0x100000000) &&& 0xFF0000) >>> 7)
      ||| (((regAddrHLWord from_ &&& 0x7F00FF) <<< 1) % 0x100000000) = from_ := by
  rw [regAddrMStep_eq_or from_ step hs]
  unfold regAddrMBase regAddrHLWord
  have hb := testBit_high 24 (n := from_) (by omega)
  have hsb := testBit_high 8 (n := step) (by omega)
  have h0 : from_.testBit 0 = false := by simp [Nat.testBit_zero, heven]
  have e3 : (0x100000000 : Nat) = 2 ^ 32 := by norm_num
  rw [e3]
  apply eq_of_testBit_lt 32
  · apply Nat.or_lt_two_pow
    · rw [Nat.shiftRight_eq_div_pow]
      have := Nat.and_lt_two_pow ((from_ <<< 7 % 2 ^ 32 &&& 16711680 ||| 2516619008 ||| step))
        (show 0xFF0000 < 2 ^ 32 by decide)
      omega
    · exact Nat.mod_lt _ (by decide)
  · omega
  · intro i hi
    simp only [Nat.testBit_shiftRight, Nat.testBit_or, Nat.testBit_and,
      Nat.testBit_mod_two_pow, Nat.testBit_shiftLeft]
    interval_cases i <;> simp [hb, hsb, h0] <;> simp [Nat.testBit_to_div_mod]

theorem packInfo_regLen (h : VdpHeader) (old : DMAOpInfo) (location from_ to_ n step : Nat) :
    (packInfo h old location from_ to_ n step).regLen = regLenWord n := rfl

theorem packInfo_regAddrMStep (h : VdpHeader) (old : DMAOpInfo)
    (location from_ to_ n step : Nat) :
    (packInfo h old location from_ to_ n step).regAddrMStep
      = (regAddrMBase from_ + step) % 0x100000000 := rfl

theorem packInfo_regAddrHAddrL (h : VdpHeader) (old : DMAOpInfo)
    (location from_ to_ n step : Nat) :
    (packInfo h old location from_ to_ n step).regAddrHAddrL = regAddrHLWord from_ := rfl

theorem regAddrMStep_high (from_ step : Nat) (hs : step < 256) :
    (regAddrMBase from_ + step) % 0x100000000 / 0x10000 = 0x9600 + ((from_ >>> 9) &&& 0xFF) := by
  have h1 := regAddrMBase_low from_
  have h2 := regAddrMBase_lt from_
  rw [← regAddrMBase_high]
  omega

theorem regAddrMStep_low (from_ step : Nat) (hs : step < 256) :
    (regAddrMBase from_ + step) % 0x100000000 % 0x10000 = 0x8F00 + step := by
  have h1 := regAddrMBase_low from_
  have h2 := regAddrMBase_lt from_
  omega

/-! ## Direct transfers -/

section direct
variable (h : VdpHeader) (e : Env) (fuel : Nat) (tr : List HwEvent)
  (location from_ to_ len : Nat) (step : Int)

theorem DMA_doDma_nosplit (hhw : e.DMA_DISABLED = false)
    (hfit : len ≤ (0x20000 - from_ % 0x20000) / 2) :
    DMA_doDma h e (fuel + 1) tr location from_ to_ len step
      = some (doDmaTail h e tr location from_ to_ len step) := by
  rw [DMA_doDma]
  simp only [and_bank, shr_one, hhw]
  rw [if_neg (by decide), if_neg (by omega)]

theorem DMA_doDma_split (hhw : e.DMA_DISABLED = false)
    (hcross : len > (0x20000 - from_ % 0x20000) / 2) :
    DMA_doDma h e (fuel + 2) tr location from_ to_ len step
      = some (doDmaTail h e
          (doDmaTail h e tr location (highFrom from_) (highTo from_ to_) (highLen from_ len)
            (-1))
          location from_ to_ ((0x20000 - from_ % 0x20000) / 2) step) := by
  rw [DMA_doDma]
  simp only [and_bank, shr_one, hhw]
  rw [if_neg (by decide), if_pos hcross]
  have hin := DMA_doDma_nosplit h e fuel tr location (highFrom from_) (highTo from_ to_)
    (highLen from_ len) (-1) hhw (by rw [highFrom_aligned]; unfold highLen; omega)
  unfold highFrom highTo highLen at hin
  rw [hin]
  rfl

end direct

/-! ## Fill length -/

theorem and_byte (x : Nat) : x &&& 0xFF = x % 256 := by
  have h := Nat.and_pow_two_sub_one_eq_mod x 8
  norm_num at h
  exact h

theorem fillLength_eq (to_ len : Nat) :
    fillLength to_ len
      = (if len = 0 then 0
         else if to_ % 2 = 1 then (if len < 3 then 1 else len - 2)
         else (if len < 2 then 1 else len - 1)) := by
  unfold fillLength
  rw [Nat.and_one_is_mod]
  by_cases h0 : len = 0
  · simp [h0]
  · by_cases h1 : to_ % 2 = 1
    · simp [h0, h1]
    · have h2 : to_ % 2 = 0 := by omega
      simp [h0, h2]

/-- C11: the length that `DMA_doVRamFill` programs, for every destination
offset and every 16-bit requested length: 0 for a request of 0; for an odd
offset 1 when the request is below 3 and `len - 2` otherwise; for an even
offset 1 when the request is below 2 and `len - 1` otherwise; hence between 1
and the request when the request is nonzero.  The two length register writes
that follow the wait carry its low and high byte.  The five sample values of
the specification are as stated. -/
theorem fill_length_adjustment (h : VdpHeader) (tr : List HwEvent) (to_ len value : Nat)
    (step : Int) (hlen : len < 0x10000) :
    fillLength to_ len
        = (if len = 0 then 0
           else if to_ % 2 = 1 then (if len < 3 then 1 else len - 2)
           else (if len < 2 then 1 else len - 1)) ∧
    (len ≠ 0 → 1 ≤ fillLength to_ len ∧ fillLength to_ len ≤ len) ∧
    (∃ pre lo hi post,
      DMA_doVRamFill h tr to_ len value step
        = pre ++ [HwEvent.waitDMACompletion, HwEvent.ctrlW (0x9300 + lo),
            HwEvent.ctrlW (0x9400 + hi)] ++ post ∧
      lo < 256 ∧ hi < 256 ∧ 256 * hi + lo = fillLength to_ len) ∧
    (fillLength 0 1 = 1 ∧ fillLength 1 2 = 1 ∧ fillLength 0 5 = 4 ∧ fillLength 1 5 = 3 ∧
      fillLength to_ 0 = 0) := by
  have hle : fillLength to_ len ≤ len := by
    rw [fillLength_eq]
    split_ifs <;> omega
  refine ⟨fillLength_eq to_ len, ?_, ?_, ⟨by decide, by decide, by decide, by decide, ?_⟩⟩
  · intro h0
    refine ⟨?_, hle⟩
    rw [fillLength_eq]
    split_ifs <;> omega
  · refine ⟨if step ≠ -1 then tr ++ [HwEvent.setAutoInc step] else tr,
      fillLength to_ len &&& 0xFF, (fillLength to_ len >>> 8) &&& 0xFF,
      [HwEvent.ctrlW 0x9780, HwEvent.ctrlL (h.GFX_DMA_VRAM_ADDR to_),
        HwEvent.dataW ((value ||| (value <<< 8)) % 0x10000)], ?_, ?_, ?_, ?_⟩
    · unfold DMA_doVRamFill
      simp
    · rw [and_byte]
      omega
    · rw [and_byte]
      omega
    · rw [and_byte, and_byte, Nat.shiftRight_eq_div_pow]
      omega
  · rw [fillLength_eq]
    simp

/-- Witness for C11: a fill of 5 words at the odd offset 1. -/
theorem fill_length_adjustment_witness :
    (5 : Nat) < 0x10000 ∧ fillLength 1 5 = 3 ∧
    DMA_doVRamFill sampleHeader [] 1 5 0xAB 1
      = [HwEvent.setAutoInc 1, HwEvent.waitDMACompletion, HwEvent.ctrlW 0x9303,
          HwEvent.ctrlW 0x9400, HwEvent.ctrlW 0x9780, HwEvent.ctrlL 0x40010080,
          HwEvent.dataW 0xABAB] ∧
    (∃ pre lo hi post,
      DMA_doVRamFill sampleHeader [] 1 5 0xAB 1
        = pre ++ [HwEvent.waitDMACompletion, HwEvent.ctrlW (0x9300 + lo),
            HwEvent.ctrlW (0x9400 + hi)] ++ post ∧
      lo < 256 ∧ hi < 256 ∧ 256 * hi + lo = fillLength 1 5) :=
  ⟨by decide, by decide, by decide,
    (fill_length_adjustment sampleHeader [] 1 5 0xAB 1 (by decide)).2.2.1⟩

/-! ## Clearing -/

/-- C13: after `DMA_flushQueue`, and after `DMA_clearQueue`, for every queue
state: `DMA_getQueueSize` and `DMA_getQueueTransferSize` return 0 and the
overflow index is 0, while capacity, budget and the two policy flags
(auto-flush, ignore-over-capacity) are unchanged. -/
theorem flush_and_clear_reset_counters (s : DMAState) :
    (DMA_getQueueSize (DMA_flushQueue s).state = 0 ∧
      DMA_getQueueTransferSize (DMA_flushQueue s).state = 0 ∧
      (DMA_flushQueue s).state.queueIndexLimit = 0 ∧
      (DMA_flushQueue s).state.queueSize = s.queueSize ∧
      (DMA_flushQueue s).state.maxTransferPerFrame = s.maxTransferPerFrame ∧
      (DMA_flushQueue s).state.flag = s.flag ∧
      DMA_getAutoFlush (DMA_flushQueue s).state = DMA_getAutoFlush s ∧
      DMA_getIgnoreOverCapacity (DMA_flushQueue s).state = DMA_getIgnoreOverCapacity s) ∧
    (DMA_getQueueSize (DMA_clearQueue s) = 0 ∧
      DMA_getQueueTransferSize (DMA_clearQueue s) = 0 ∧
      (DMA_clearQueue s).queueIndexLimit = 0 ∧
      (DMA_clearQueue s).queueSize = s.queueSize ∧
      (DMA_clearQueue s).maxTransferPerFrame = s.maxTransferPerFrame ∧
      (DMA_clearQueue s).flag = s.flag ∧
      DMA_getAutoFlush (DMA_clearQueue s) = DMA_getAutoFlush s ∧
      DMA_getIgnoreOverCapacity (DMA_clearQueue s) = DMA_getIgnoreOverCapacity s) :=
  ⟨⟨rfl, rfl, rfl, rfl, rfl, rfl, rfl, rfl⟩, ⟨rfl, rfl, rfl, rfl, rfl, rfl, rfl, rfl⟩⟩

/-! ## Packed words: round trip and agreement with the direct path -/

/-- C15: for every even source address below `2^24`, every word length up to
`0xFFFF` and every step in `0 .. 255`, the decoding of the software replay of
`DMA_flushQueue` (lines 158-160), applied to the words packed by
`DMA_queueDma` (lines 290-295), gives back `(from, n, step)`; so the replay
of that descriptor is `DMA_doSoftwareCopyDirect` on exactly these values. -/
theorem unpack_pack_roundtrip (h : VdpHeader) (e : Env) (tr : List HwEvent) (old : DMAOpInfo)
    (location from_ to_ n step : Nat)
    (hf : from_ < 0x1000000) (heven : from_ % 2 = 0) (hn : n ≤ 0xFFFF) (hs : step ≤ 255) :
    (unpackInfo (packInfo h old location from_ to_ n step)).1 = from_ ∧
    (unpackInfo (packInfo h old location from_ to_ n step)).2.1 = n ∧
    (unpackInfo (packInfo h old location from_ to_ n step)).2.2.1 = (step : Int) ∧
    flushSoftware e tr [packInfo h old location from_ to_ n step]
      = DMA_doSoftwareCopyDirect e tr
          ((packInfo h old location from_ to_ n step).regCtrlWrite &&& 0xFFFFFF7F)
          from_ n (step : Int) := by
  have e1 : (unpackInfo (packInfo h old location from_ to_ n step)).1 = from_ := by
    simp only [unpackInfo, packInfo_regAddrMStep, packInfo_regAddrHAddrL]
    exact unpack_from from_ step (by omega) hf heven
  have e2 : (unpackInfo (packInfo h old location from_ to_ n step)).2.1 = n := by
    simp only [unpackInfo, packInfo_regLen]
    exact unpack_len n (by omega)
  have e3 : (unpackInfo (packInfo h old location from_ to_ n step)).2.2.1 = (step : Int) := by
    simp only [unpackInfo, packInfo_regAddrMStep]
    rw [unpack_step from_ step (by omega)]
  refine ⟨e1, e2, e3, ?_⟩
  simp only [flushSoftware]
  rw [e1, e2, e3]
  rfl

/-- Witness for C15: source `0x123456`, 300 words, step 2, to VRAM offset
`0x40`. -/
theorem unpack_pack_roundtrip_witness :
    ((0x123456 : Nat) < 0x1000000 ∧ 0x123456 % 2 = 0 ∧ (300 : Nat) ≤ 0xFFFF ∧ (2 : Nat) ≤ 255) ∧
    packInfo sampleHeader ⟨0, 0, 0, 0⟩ 0 0x123456 0x40 300 2
      = ⟨0x9401932C, 0x961A8F02, 0x9709952B, 0x40400080⟩ ∧
    (unpackInfo (packInfo sampleHeader ⟨0, 0, 0, 0⟩ 0 0x123456 0x40 300 2)).1 = 0x123456 ∧
    (unpackInfo (packInfo sampleHeader ⟨0, 0, 0, 0⟩ 0 0x123456 0x40 300 2)).2.1 = 300 ∧
    (unpackInfo (packInfo sampleHeader ⟨0, 0, 0, 0⟩ 0 0x123456 0x40 300 2)).2.2.1 = ((2 : Nat) : Int) ∧
    flushSoftware (sampleEnv true) [] [packInfo sampleHeader ⟨0, 0, 0, 0⟩ 0 0x123456 0x40 300 2]
      = DMA_doSoftwareCopyDirect (sampleEnv true) []
          ((packInfo sampleHeader ⟨0, 0, 0, 0⟩ 0 0x123456 0x40 300 2).regCtrlWrite
            &&& 0xFFFFFF7F)
          0x123456 300 ((2 : Nat) : Int) :=
  ⟨⟨by decide, by decide, by decide, by decide⟩, by decide,
    unpack_pack_roundtrip sampleHeader (sampleEnv true) [] ⟨0, 0, 0, 0⟩ 0 0x123456 0x40 300 2
      (by decide) (by decide) (by decide) (by decide)⟩

/-- C18: for every source address, every word length up to `0xFFFF` and every
step in `0 .. 255`, the 16-bit halves of the words `regLen`, `regAddrMStep`
and `regAddrHAddrL` packed by `DMA_queueDma` are `0x9400 + ((n >> 8) & 0xFF)`,
`0x9300 + (n & 0xFF)`, `0x9600 + ((from >> 9) & 0xFF)`, `0x8F00 + step`,
`0x9700 + ((from >> 17) & 0x7F)` and `0x9500 + ((from >> 1) & 0xFF)`; the five
length and address values are the ones `DMA_doDma` writes one by one, and for
a non-crossing request on the hardware build they are the five control-port
writes that follow the wait. -/
theorem queued_words_match_direct_writes (h : VdpHeader) (old : DMAOpInfo)
    (location from_ to_ n step : Nat) (hn : n ≤ 0xFFFF) (hs : step ≤ 255) :
    ((packInfo h old location from_ to_ n step).regLen / 0x10000
        = 0x9400 + ((n >>> 8) &&& 0xFF) ∧
      (packInfo h old location from_ to_ n step).regLen % 0x10000 = 0x9300 + (n &&& 0xFF) ∧
      (packInfo h old location from_ to_ n step).regAddrMStep / 0x10000
        = 0x9600 + ((from_ >>> 9) &&& 0xFF) ∧
      (packInfo h old location from_ to_ n step).regAddrMStep % 0x10000 = 0x8F00 + step ∧
      (packInfo h old location from_ to_ n step).regAddrHAddrL / 0x10000
        = 0x9700 + ((from_ >>> 17) &&& 0x7F) ∧
      (packInfo h old location from_ to_ n step).regAddrHAddrL % 0x10000
        = 0x9500 + ((from_ >>> 1) &&& 0xFF)) ∧
    doDmaRegWrites from_ n
      = [(packInfo h old location from_ to_ n step).regLen % 0x10000,
          (packInfo h old location from_ to_ n step).regLen / 0x10000,
          (packInfo h old location from_ to_ n step).regAddrHAddrL % 0x10000,
          (packInfo h old location from_ to_ n step).regAddrMStep / 0x10000,
          (packInfo h old location from_ to_ n step).regAddrHAddrL / 0x10000] ∧
    (∀ (e : Env) (tr : List HwEvent) (st : Int),
      e.DMA_DISABLED = false → n ≤ (0x20000 - from_ % 0x20000) / 2 →
      ∃ pre post, (∀ fuel, DMA_doDma h e (fuel + 1) tr location from_ to_ n st
          = some (pre ++ [HwEvent.waitDMACompletion]
              ++ (doDmaRegWrites from_ n).map HwEvent.ctrlW ++ post))) := by
  have a1 := regLenWord_high n (by omega)
  have a2 := regLenWord_low n
  have a3 := regAddrMStep_high from_ step (by omega)
  have a4 := regAddrMStep_low from_ step (by omega)
  have a5 := regAddrHLWord_high from_
  have a6 := regAddrHLWord_low from_
  simp only [packInfo_regLen, packInfo_regAddrMStep, packInfo_regAddrHAddrL]
  refine ⟨⟨a1, a2, a3, a4, a5, a6⟩, ?_, ?_⟩
  · rw [a1, a2, a3, a5, a6]
    simp only [doDmaRegWrites, ← Nat.shiftRight_add]
  · intro e tr st hhw hfit
    refine ⟨if st ≠ -1 then tr ++ [HwEvent.setAutoInc st] else tr,
      doDmaTrigger e.HALT_Z80_ON_DMA (doDmaCmd h location to_)
        (if e.Z80_isBusTaken
            ((if st ≠ -1 then tr ++ [HwEvent.setAutoInc st] else tr)
              ++ [HwEvent.waitDMACompletion]) then 0x0100 else 0x0000),
      fun fuel => ?_⟩
    rw [DMA_doDma_nosplit h e fuel tr location from_ to_ n st hhw hfit]
    simp only [doDmaTail]

/-- Witness for C18: source `0x123456`, 300 words, step 2. -/
theorem queued_words_match_direct_writes_witness :
    ((300 : Nat) ≤ 0xFFFF ∧ (2 : Nat) ≤ 255) ∧
    doDmaRegWrites 0x123456 300 = [0x932C, 0x9401, 0x952B, 0x961A, 0x9709] ∧
    DMA_doDma sampleHeader (sampleEnv true) 1 [] 0 0x123456 0x40 300 2
      = some [HwEvent.setAutoInc 2, HwEvent.waitDMACompletion, HwEvent.ctrlW 0x932C,
          HwEvent.ctrlW 0x9401, HwEvent.ctrlW 0x952B, HwEvent.ctrlW 0x961A,
          HwEvent.ctrlW 0x9709, HwEvent.ctrlW 0x4040, HwEvent.z80Halt 0x0100,
          HwEvent.ctrlW 0x0080, HwEvent.z80Halt 0x0000] ∧
    doDmaRegWrites 0x123456 300
      = [(packInfo sampleHeader ⟨0, 0, 0, 0⟩ 0 0x123456 0x40 300 2).regLen % 0x10000,
          (packInfo sampleHeader ⟨0, 0, 0, 0⟩ 0 0x123456 0x40 300 2).regLen / 0x10000,
          (packInfo sampleHeader ⟨0, 0, 0, 0⟩ 0 0x123456 0x40 300 2).regAddrHAddrL % 0x10000,
          (packInfo sampleHeader ⟨0, 0, 0, 0⟩ 0 0x123456 0x40 300 2).regAddrMStep / 0x10000,
          (packInfo sampleHeader ⟨0, 0, 0, 0⟩ 0 0x123456 0x40 300 2).regAddrHAddrL / 0x10000] :=
  ⟨⟨by decide, by decide⟩, by decide, by decide,
    (queued_words_match_direct_writes sampleHeader ⟨0, 0, 0, 0⟩ 0 0x123456 0x40 300 2
      (by decide) (by decide)).2.1⟩

/-! ## Ordering of the accesses of a direct transfer -/

/-- C12, as stated, fails for `HALT_Z80_ON_DMA == 0`: in the trace of a
10-word transfer the Z80 restore write (position 9) comes before the trigger
half-word (position 10), which is the last access of the call. -/
theorem direct_restore_precedes_trigger :
    DMA_doDma sampleHeader (sampleEnv false) 1 [] 0 0x1000 0x40 10 2
      = some [HwEvent.setAutoInc 2, HwEvent.waitDMACompletion, HwEvent.ctrlW 0x930A,
          HwEvent.ctrlW 0x9400, HwEvent.ctrlW 0x9500, HwEvent.ctrlW 0x9608,
          HwEvent.ctrlW 0x9700, HwEvent.ctrlW 0x4040, HwEvent.z80Halt 0x0100,
          HwEvent.z80Halt 0x0000, HwEvent.ctrlW 0x0080] ∧
    (DMA_doDma sampleHeader (sampleEnv false) 1 [] 0 0x1000 0x40 10 2).map
        (fun tr => (tr.indexOf (HwEvent.z80Halt 0x0000), tr.indexOf (HwEvent.ctrlW 0x0080),
          tr.length)) = some (9, 10, 11) :=
  ⟨by decide, by decide⟩

/-- C12, amended: in every `DMA_doDma` call of the hardware build the call
ends with the first command half-word, the Z80 halt write `0x0100`, and the
trigger half-word, so the halt always precedes the trigger.  With
`HALT_Z80_ON_DMA != 0` the restore write follows the trigger half-word; with
`HALT_Z80_ON_DMA == 0` it is made right after the halt, immediately before the
trigger half-word.  The restore value is `0x0100` or `0x0000`. -/
theorem direct_trigger_ordering (h : VdpHeader) (e : Env) (tr : List HwEvent)
    (location from_ to_ len : Nat) (step : Int) (hhw : e.DMA_DISABLED = false) :
    ∃ pre zr, (zr = 0x0100 ∨ zr = 0x0000) ∧
      ∀ fuel, DMA_doDma h e (fuel + 2) tr location from_ to_ len step
        = some (pre ++
            (if e.HALT_Z80_ON_DMA then
              [HwEvent.ctrlW ((doDmaCmd h location to_ % 0x100000000) / 0x10000),
                HwEvent.z80Halt 0x0100,
                HwEvent.ctrlW (doDmaCmd h location to_ % 0x10000),
                HwEvent.z80Halt zr]
            else
              [HwEvent.ctrlW ((doDmaCmd h location to_ % 0x100000000) / 0x10000),
                HwEvent.z80Halt 0x0100,
                HwEvent.z80Halt zr,
                HwEvent.ctrlW (doDmaCmd h location to_ % 0x10000)])) := by
  have key : ∀ (t0 : List HwEvent) (n : Nat),
      ∃ pre zr, (zr = 0x0100 ∨ zr = 0x0000) ∧
        doDmaTail h e t0 location from_ to_ n step
          = pre ++
            (if e.HALT_Z80_ON_DMA then
              [HwEvent.ctrlW ((doDmaCmd h location to_ % 0x100000000) / 0x10000),
                HwEvent.z80Halt 0x0100,
                HwEvent.ctrlW (doDmaCmd h location to_ % 0x10000),
                HwEvent.z80Halt zr]
            else
              [HwEvent.ctrlW ((doDmaCmd h location to_ % 0x100000000) / 0x10000),
                HwEvent.z80Halt 0x0100,
                HwEvent.z80Halt zr,
                HwEvent.ctrlW (doDmaCmd h location to_ % 0x10000)]) := by
    intro t0 n
    refine ⟨(if step ≠ -1 then t0 ++ [HwEvent.setAutoInc step] else t0)
        ++ [HwEvent.waitDMACompletion] ++ (doDmaRegWrites from_ n).map HwEvent.ctrlW,
      if e.Z80_isBusTaken ((if step ≠ -1 then t0 ++ [HwEvent.setAutoInc step] else t0)
        ++ [HwEvent.waitDMACompletion]) then 0x0100 else 0x0000, ?_, ?_⟩
    · by_cases hb : e.Z80_isBusTaken
          ((if step ≠ -1 then t0 ++ [HwEvent.setAutoInc step] else t0)
            ++ [HwEvent.waitDMACompletion]) = true
      · rw [if_pos hb]
        exact Or.inl rfl
      · rw [if_neg hb]
        exact Or.inr rfl
    · unfold doDmaTail doDmaTrigger
      cases e.HALT_Z80_ON_DMA <;> simp
  by_cases hcross : len > (0x20000 - from_ % 0x20000) / 2
  · obtain ⟨pre, zr, hzr, hk⟩ := key
      (doDmaTail h e tr location (highFrom from_) (highTo from_ to_) (highLen from_ len) (-1))
      ((0x20000 - from_ % 0x20000) / 2)
    refine ⟨pre, zr, hzr, fun fuel => ?_⟩
    rw [DMA_doDma_split h e fuel tr location from_ to_ len step hhw hcross, hk]
  · obtain ⟨pre, zr, hzr, hk⟩ := key tr len
    refine ⟨pre, zr, hzr, fun fuel => ?_⟩
    rw [DMA_doDma_nosplit h e (fuel + 1) tr location from_ to_ len step hhw (by omega), hk]

/-- Witness for C12: the same 10-word transfer under both settings of
`HALT_Z80_ON_DMA`. -/
theorem direct_trigger_ordering_witness :
    ((sampleEnv true).DMA_DISABLED = false ∧ (sampleEnv false).DMA_DISABLED = false) ∧
    DMA_doDma sampleHeader (sampleEnv true) 2 [] 0 0x1000 0x40 10 2
      = some [HwEvent.setAutoInc 2, HwEvent.waitDMACompletion, HwEvent.ctrlW 0x930A,
          HwEvent.ctrlW 0x9400, HwEvent.ctrlW 0x9500, HwEvent.ctrlW 0x9608,
          HwEvent.ctrlW 0x9700, HwEvent.ctrlW 0x4040, HwEvent.z80Halt 0x0100,
          HwEvent.ctrlW 0x0080, HwEvent.z80Halt 0x0000] ∧
    (∃ pre zr, (zr = 0x0100 ∨ zr = 0x0000) ∧
      ∀ fuel, DMA_doDma sampleHeader (sampleEnv true) (fuel + 2) [] 0 0x1000 0x40 10 2
        = some (pre ++
            (if (sampleEnv true).HALT_Z80_ON_DMA then
              [HwEvent.ctrlW ((doDmaCmd sampleHeader 0 0x40 % 0x100000000) / 0x10000),
                HwEvent.z80Halt 0x0100,
                HwEvent.ctrlW (doDmaCmd sampleHeader 0 0x40 % 0x10000),
                HwEvent.z80Halt zr]
            else
              [HwEvent.ctrlW ((doDmaCmd sampleHeader 0 0x40 % 0x100000000) / 0x10000),
                HwEvent.z80Halt 0x0100,
                HwEvent.z80Halt zr,
                HwEvent.ctrlW (doDmaCmd sampleHeader 0 0x40 % 0x10000)]))) ∧
    (∃ pre zr, (zr = 0x0100 ∨ zr = 0x0000) ∧
      ∀ fuel, DMA_doDma sampleHeader (sampleEnv false) (fuel + 2) [] 0 0x1000 0x40 10 2
        = some (pre ++
            (if (sampleEnv false).HALT_Z80_ON_DMA then
              [HwEvent.ctrlW ((doDmaCmd sampleHeader 0 0x40 % 0x100000000) / 0x10000),
                HwEvent.z80Halt 0x0100,
                HwEvent.ctrlW (doDmaCmd sampleHeader 0 0x40 % 0x10000),
                HwEvent.z80Halt zr]
            else
              [HwEvent.ctrlW ((doDmaCmd sampleHeader 0 0x40 % 0x100000000) / 0x10000),
                HwEvent.z80Halt 0x0100,
                HwEvent.z80Halt zr,
                HwEvent.ctrlW (doDmaCmd sampleHeader 0 0x40 % 0x10000)]))) :=
  ⟨⟨by decide, by decide⟩, by decide,
    direct_trigger_ordering sampleHeader (sampleEnv true) [] 0 0x1000 0x40 10 2 (by decide),
    direct_trigger_ordering sampleHeader (sampleEnv false) [] 0 0x1000 0x40 10 2 (by decide)⟩

/-- C20, as stated, fails: in the trace of a non-crossing 10-word transfer
with step 2 the call of `VDP_setAutoInc` (position 0) comes before the return
of `VDP_waitDMACompletion` (position 1). -/
theorem direct_autoinc_precedes_wait :
    (DMA_doDma sampleHeader (sampleEnv true) 1 [] 0 0x1000 0x40 10 2).map
        (fun tr => (tr.indexOf (HwEvent.setAutoInc 2), tr.indexOf HwEvent.waitDMACompletion,
          tr.take 3))
      = some (0, 1, [HwEvent.setAutoInc 2, HwEvent.waitDMACompletion, HwEvent.ctrlW 0x930A]) ∧
    ¬ ((DMA_doDma sampleHeader (sampleEnv true) 1 [] 0 0x1000 0x40 10 2).map
        (fun tr => decide (tr.indexOf HwEvent.waitDMACompletion
          < tr.indexOf (HwEvent.setAutoInc 2))) = some true) :=
  ⟨by decide, by decide⟩

/-- C20, amended: in every `DMA_doDma` call of the hardware build with a
non-crossing request and a step different from -1, the auto-increment
register is updated first (`VDP_setAutoInc`), then the wait for hardware idle
(`VDP_waitDMACompletion`) returns, and both come before the first length or
address register write. -/
theorem direct_autoinc_then_wait (h : VdpHeader) (e : Env) (tr : List HwEvent)
    (location from_ to_ len : Nat) (step : Int) (hhw : e.DMA_DISABLED = false)
    (hfit : len ≤ (0x20000 - from_ % 0x20000) / 2) (hstep : step ≠ -1) :
    ∃ post, ∀ fuel, DMA_doDma h e (fuel + 1) tr location from_ to_ len step
      = some (tr ++ [HwEvent.setAutoInc step, HwEvent.waitDMACompletion]
          ++ (doDmaRegWrites from_ len).map HwEvent.ctrlW ++ post) := by
  refine ⟨doDmaTrigger e.HALT_Z80_ON_DMA (doDmaCmd h location to_)
    (if e.Z80_isBusTaken (tr ++ [HwEvent.setAutoInc step] ++ [HwEvent.waitDMACompletion])
      then 0x0100 else 0x0000), fun fuel => ?_⟩
  rw [DMA_doDma_nosplit h e fuel tr location from_ to_ len step hhw hfit]
  unfold doDmaTail
  simp [hstep]

/-- Witness for C20: a 10-word transfer from `0x1000` with step 2. -/
theorem direct_autoinc_then_wait_witness :
    ((sampleEnv true).DMA_DISABLED = false ∧
      (10 : Nat) ≤ (0x20000 - 0x1000 % 0x20000) / 2 ∧ (2 : Int) ≠ -1) ∧
    ∃ post, ∀ fuel, DMA_doDma sampleHeader (sampleEnv true) (fuel + 1) [] 0 0x1000 0x40 10 2
      = some ([] ++ [HwEvent.setAutoInc 2, HwEvent.waitDMACompletion]
          ++ (doDmaRegWrites 0x1000 10).map HwEvent.ctrlW ++ post) :=
  ⟨⟨by decide, by decide, by decide⟩,
    direct_autoinc_then_wait sampleHeader (sampleEnv true) [] 0 0x1000 0x40 10 2
      (by decide) (by decide) (by decide)⟩

/-! ## Destination offsets and slot order of a split request -/

/-- C14, as stated, fails: a 5-word request to offset `0x100` that starts 4
bytes (2 words) below a bank boundary stores the low segment (2 words) at
offset `0x100` and the high segment at offset `0x104`, not `0x102`. -/
theorem split_destination_not_word_contiguous :
    (DMA_queueDma sampleHeader 2 (DMA_initEx powerOn zeroBlock 4 0) 0 0x1FFFC 0x100 5 2).map
        (fun r => r.stored.map (fun w => (w.from_, w.to_, w.newlen)))
      = some [(0x20000, 0x104, 3), (0x1FFFC, 0x100, 2)] ∧
    ¬ ((0x104 : Nat) = (0x100 + 2) % 0x10000) :=
  ⟨by decide, by decide⟩

/-- C14, amended: for every bank-crossing request that `DMA_queueDma` stores
as two descriptors, the destination offset of the high-address segment is the
destination offset of the low-address segment plus the number of bytes from
`from` up to the bank boundary, `0x20000 - (from mod 0x20000)`, modulo `2^16`;
for an even `from` that is twice the word length of the low-address segment.
The two word lengths sum to `len`. -/
theorem split_destination_offsets (h : VdpHeader) (s : DMAState)
    (location from_ to_ len step : Nat) (hroom : s.queueIndex < s.queueSize)
    (hlen : len < 0x10000) (hcross : len > (0x20000 - from_ % 0x20000) / 2) :
    ∃ r hi lo, (∀ fuel, DMA_queueDma h (fuel + 2) s location from_ to_ len step = some r) ∧
      r.stored = [hi, lo] ∧
      lo.from_ = from_ ∧ lo.to_ = to_ ∧
      hi.from_ = (from_ + (0x20000 - from_ % 0x20000)) % 0x100000000 ∧
      hi.to_ = (lo.to_ + (0x20000 - from_ % 0x20000)) % 0x10000 ∧
      (from_ % 2 = 0 → hi.to_ = (lo.to_ + 2 * lo.newlen) % 0x10000) ∧
      hi.newlen + lo.newlen = len ∧
      (∃ old, hi.info = packInfo h old location hi.from_ hi.to_ hi.newlen step) ∧
      (∃ old, lo.info = packInfo h old location lo.from_ lo.to_ lo.newlen step) := by
  refine ⟨_, tailWrite h s location (highFrom from_) (highTo from_ to_) (highLen from_ len) step,
    tailWrite h (queueTail h s location (highFrom from_) (highTo from_ to_)
      (highLen from_ len) step []).state location from_ to_
      ((0x20000 - from_ % 0x20000) / 2) step,
    fun fuel => DMA_queueDma_split h fuel s location from_ to_ len step hroom hcross,
    ?_, rfl, rfl, rfl, rfl, ?_, ?_, ⟨_, rfl⟩, ⟨_, rfl⟩⟩
  · simp only [queueTail_stored, List.nil_append, List.cons_append]
  · intro heven
    simp only [tailWrite, highTo]
    congr 1
    omega
  · simp only [tailWrite]
    unfold highLen
    omega

/-- Witness for C14: the 5-word request of the counterexample. -/
theorem split_destination_offsets_witness :
    ((DMA_initEx powerOn zeroBlock 4 0).queueIndex < (DMA_initEx powerOn zeroBlock 4 0).queueSize ∧
      (5 : Nat) < 0x10000 ∧ (5 : Nat) > (0x20000 - 0x1FFFC % 0x20000) / 2) ∧
    ∃ r hi lo, (∀ fuel, DMA_queueDma sampleHeader (fuel + 2) (DMA_initEx powerOn zeroBlock 4 0)
        0 0x1FFFC 0x100 5 2 = some r) ∧
      r.stored = [hi, lo] ∧
      lo.from_ = 0x1FFFC ∧ lo.to_ = 0x100 ∧
      hi.from_ = (0x1FFFC + (0x20000 - 0x1FFFC % 0x20000)) % 0x100000000 ∧
      hi.to_ = (lo.to_ + (0x20000 - 0x1FFFC % 0x20000)) % 0x10000 ∧
      (0x1FFFC % 2 = 0 → hi.to_ = (lo.to_ + 2 * lo.newlen) % 0x10000) ∧
      hi.newlen + lo.newlen = 5 ∧
      (∃ old, hi.info = packInfo sampleHeader old 0 hi.from_ hi.to_ hi.newlen 2) ∧
      (∃ old, lo.info = packInfo sampleHeader old 0 lo.from_ lo.to_ lo.newlen 2) :=
  ⟨⟨by decide, by decide, by decide⟩,
    split_destination_offsets sampleHeader (DMA_initEx powerOn zeroBlock 4 0)
      0 0x1FFFC 0x100 5 2 (by decide) (by decide) (by decide)⟩

/-- The accesses of `DMA_flushQueue` in the hardware build, through the
routines `flushQueue` and `flushQueueSafe`: the slots `0 .. replayCount - 1` in
ascending order, four command words each. -/
theorem flushEvents_hardware (e : Env) (s : DMAState) (tr : List HwEvent)
    (hhw : e.DMA_DISABLED = false) :
    flushEvents e s tr
      = tr ++ [HwEvent.waitDMACompletion, HwEvent.getAutoInc]
          ++ (if e.HALT_Z80_ON_DMA then
                [HwEvent.z80Halt 0x0100]
                  ++ (List.range (replayCount s)).flatMap (fun j =>
                      [HwEvent.ctrlL (s.dmaQueues j).regLen,
                        HwEvent.ctrlL (s.dmaQueues j).regAddrMStep,
                        HwEvent.ctrlL (s.dmaQueues j).regAddrHAddrL,
                        HwEvent.ctrlL (s.dmaQueues j).regCtrlWrite])
                  ++ [HwEvent.z80Halt
                        (if e.Z80_isBusTaken
                            (tr ++ [HwEvent.waitDMACompletion] ++ [HwEvent.getAutoInc])
                          then 0x0100 else 0x0000)]
              else
                (List.range (replayCount s)).flatMap (fun j =>
                  [HwEvent.ctrlL (s.dmaQueues j).regLen,
                    HwEvent.ctrlL (s.dmaQueues j).regAddrMStep,
                    HwEvent.ctrlL (s.dmaQueues j).regAddrHAddrL,
                    HwEvent.z80Halt 0x0100,
                    HwEvent.z80Halt
                      (if e.Z80_isBusTaken
                          (tr ++ [HwEvent.waitDMACompletion] ++ [HwEvent.getAutoInc])
                        then 0x0100 else 0x0000),
                    HwEvent.ctrlL (s.dmaQueues j).regCtrlWrite]))
          ++ [HwEvent.setAutoInc
                (e.VDP_getAutoInc (tr ++ [HwEvent.waitDMACompletion]) : Int)] := by
  unfold flushEvents flushQueue flushQueueSafe
  simp only [hhw, DMA_flushQueue, List.flatMap_map]
  cases e.HALT_Z80_ON_DMA <;> simp [Function.comp_def]

theorem runQueue_cons (h : VdpHeader) (fuel : Nat) (s : DMAState) (r : Request)
    (rs : List Request) :
    runQueue h fuel s (r :: rs)
      = match DMA_queueDma h fuel s r.location r.from_ r.to_ r.len r.step with
        | none => none
        | some q =>
          match runQueue h fuel q.state rs with
          | none => none
          | some (s', rets, ws) => some (s', q.ret :: rets, q.stored ++ ws) := rfl

theorem runQueue_append (h : VdpHeader) (fuel : Nat) (a b : List Request) :
    ∀ s : DMAState, runQueue h fuel s (a ++ b)
      = match runQueue h fuel s a with
        | none => none
        | some (s1, r1, w1) =>
          match runQueue h fuel s1 b with
          | none => none
          | some (s2, r2, w2) => some (s2, r1 ++ r2, w1 ++ w2) := by
  induction a with
  | nil =>
    intro s
    rw [List.nil_append]
    cases hb : runQueue h fuel s b with
    | none => simp [runQueue, hb]
    | some x => simp [runQueue, hb]
  | cons r rs ih =>
    intro s
    rw [List.cons_append, runQueue_cons, runQueue_cons]
    cases DMA_queueDma h fuel s r.location r.from_ r.to_ r.len r.step with
    | none => rfl
    | some q =>
      simp only []
      rw [ih q.state]
      cases runQueue h fuel q.state rs with
      | none => rfl
      | some x =>
        obtain ⟨s1, r1, w1⟩ := x
        simp only []
        cases runQueue h fuel s1 b with
        | none => rfl
        | some y =>
          obtain ⟨s2, r2, w2⟩ := y
          simp

/-- A run of `n` equal non-crossing requests on a queue with `n` free slots:
the count grows by `n`, the settings stay, an overflow index already recorded
stays, and with budget 0 every call returns TRUE. -/
theorem runQueue_sameRequests (h : VdpHeader) (r : Request)
    (hfit : r.len ≤ (0x20000 - r.from_ % 0x20000) / 2) :
    ∀ (n : Nat) (s : DMAState), s.queueIndex + n ≤ s.queueSize → s.queueSize < 0x10000 →
      s.queueTransferSize < 0x100000000 →
      ∃ s' rets ws, (∀ fuel, runQueue h (fuel + 1) s (sameRequests n r) = some (s', rets, ws)) ∧
        s'.queueIndex = s.queueIndex + n ∧ s'.queueSize = s.queueSize ∧
        s'.maxTransferPerFrame = s.maxTransferPerFrame ∧ s'.flag = s.flag ∧
        rets.length = n ∧ ws.length = n ∧
        s'.queueTransferSize = (s.queueTransferSize + n * (2 * r.len)) % 0x100000000 ∧
        (s.queueIndexLimit ≠ 0 → s'.queueIndexLimit = s.queueIndexLimit) ∧
        (s.maxTransferPerFrame = 0 →
          s'.queueIndexLimit = s.queueIndexLimit ∧ ∀ b ∈ rets, b = true) := by
  intro n
  induction n with
  | zero =>
    intro s _ _ ht
    refine ⟨s, [], [], fun fuel => rfl, rfl, rfl, rfl, rfl, rfl, rfl, ?_, fun _ => rfl,
      fun _ => ⟨rfl, fun b hb => absurd hb (List.not_mem_nil b)⟩⟩
    omega
  | succ n ih =>
    intro s hfree hsize ht
    have hq := fun fuel => DMA_queueDma_nosplit h fuel s r.location r.from_ r.to_ r.len r.step
      (by omega) hfit
    obtain ⟨s', rets, ws, hrun, hi, hz, hm, hf, hrl, hwl, htot, hlim, hbud⟩ :=
      ih (queueTail h s r.location r.from_ r.to_ r.len r.step []).state
        (by rw [queueTail_queueIndex, queueTail_queueSize]; omega)
        (by rw [queueTail_queueSize]; exact hsize)
        (by rw [queueTail_queueTransferSize]; omega)
    rw [queueTail_queueIndex] at hi
    rw [queueTail_queueSize] at hz
    rw [queueTail_maxTransferPerFrame] at hm hbud
    rw [queueTail_flag] at hf
    rw [queueTail_queueTransferSize] at htot
    rw [queueTail_queueIndexLimit] at hlim hbud
    refine ⟨s', (queueTail h s r.location r.from_ r.to_ r.len r.step []).ret :: rets,
      (queueTail h s r.location r.from_ r.to_ r.len r.step []).stored ++ ws,
      fun fuel => ?_, by omega, hz, hm, hf, by simp [hrl], ?_, ?_, ?_, ?_⟩
    · simp only [sameRequests, List.replicate_succ, runQueue, hq fuel]
      have := hrun fuel
      simp only [sameRequests] at this
      rw [this]
    · simp [queueTail_stored, hwl]
    · have hmul : (n + 1) * (2 * r.len) = n * (2 * r.len) + 2 * r.len := Nat.succ_mul _ _
      rw [htot, hmul]
      generalize n * (2 * r.len) = m
      omega
    · intro hne
      have hnot : ¬ (overBudget s r.len ∧ s.queueIndexLimit = 0) := fun hc => hne hc.2
      rw [if_neg hnot] at hlim
      exact hlim hne
    · intro hzero
      have hnb : ¬ overBudget s r.len := fun hc => hc.1 hzero
      have hnot : ¬ (overBudget s r.len ∧ s.queueIndexLimit = 0) := fun hc => hnb hc.1
      rw [if_neg hnot] at hbud
      obtain ⟨hl', hall⟩ := hbud hzero
      refine ⟨hl', ?_⟩
      intro b hb
      rcases List.mem_cons.1 hb with rfl | hb'
      · rw [queueTail_ret, if_neg (fun hc => hnb hc.1)]
      · exact hall b hb'

theorem sameRequests_two (n : Nat) (r : Request) :
    sameRequests (n + 2) r = r :: r :: sameRequests n r := rfl

/-- C17: evaluation at the failing input.  On a queue of capacity 65535 with
budget 1 (`DMA_initEx(65535, 1)`), 65534 one-word requests leave
`queueIndex = 65534` and the overflow index 1 (recorded by the second call).
A bank-crossing request then fills slot 65534 in the nested call and slot
65535, outside the queue, in the outer call, and the 16-bit `queueIndex`
wraps to 0: the overflow index 1 is nonzero and above the occupied count. -/
theorem overflow_index_above_count_on_wrap :
    ∃ s' rets ws,
      runQueue sampleHeader 2 (DMA_initEx powerOn zeroBlock 65535 1)
        (sameRequests 65534 ⟨0, 0, 0, 1, 2⟩ ++ [⟨0, 0x1FFFE, 0, 2, 2⟩]) = some (s', rets, ws) ∧
      s'.queueSize = 65535 ∧ s'.queueIndex = 0 ∧ s'.queueIndexLimit = 1 ∧
      ¬ (s'.queueIndexLimit = 0 ∨ s'.queueIndexLimit ≤ s'.queueIndex) := by
  obtain ⟨q1, hq1⟩ : ∃ q, q = queueTail sampleHeader (DMA_initEx powerOn zeroBlock 65535 1)
      0 0 0 1 2 [] := ⟨_, rfl⟩
  obtain ⟨q2, hq2⟩ : ∃ q, q = queueTail sampleHeader q1.state 0 0 0 1 2 [] := ⟨_, rfl⟩
  have hi2 : q2.state.queueIndex = 2 := by rw [hq2, hq1]; decide
  have hz2 : q2.state.queueSize = 65535 := by rw [hq2, hq1]; decide
  have hl2 : q2.state.queueIndexLimit = 1 := by rw [hq2, hq1]; decide
  have ht2 : q2.state.queueTransferSize = 4 := by rw [hq2, hq1]; decide
  have hrun0 : runQueue sampleHeader 2 (DMA_initEx powerOn zeroBlock 65535 1)
      [⟨0, 0, 0, 1, 2⟩, ⟨0, 0, 0, 1, 2⟩]
      = some (q2.state, [q1.ret, q2.ret], q1.stored ++ (q2.stored ++ [])) := by
    rw [hq2, hq1]
    rfl
  obtain ⟨s1, rets, ws, hrun, hi, hz, _, _, _, _, _, hlim, _⟩ :=
    runQueue_sameRequests sampleHeader ⟨0, 0, 0, 1, 2⟩ (by decide) 65532 q2.state
      (by omega) (by omega) (by omega)
  have hrun2 : runQueue sampleHeader 2 q2.state (sameRequests 65532 ⟨0, 0, 0, 1, 2⟩)
      = some (s1, rets, ws) := hrun 1
  have hl1 : s1.queueIndexLimit = 1 := by rw [hlim (by omega), hl2]
  have hsplit : DMA_queueDma sampleHeader 2 s1 0 0x1FFFE 0 2 2 = _ :=
    DMA_queueDma_split sampleHeader 0 s1 0 0x1FFFE 0 2 2 (by omega) (by decide)
  obtain ⟨q, hq⟩ : ∃ q, q = queueTail sampleHeader
      (queueTail sampleHeader s1 0 (highFrom 0x1FFFE) (highTo 0x1FFFE 0) (highLen 0x1FFFE 2) 2
        []).state
      0 0x1FFFE 0 ((0x20000 - 0x1FFFE % 0x20000) / 2) 2
      (queueTail sampleHeader s1 0 (highFrom 0x1FFFE) (highTo 0x1FFFE 0) (highLen 0x1FFFE 2) 2
        []).stored := ⟨_, rfl⟩
  rw [← hq] at hsplit
  have hlq1 : (queueTail sampleHeader s1 0 (highFrom 0x1FFFE) (highTo 0x1FFFE 0)
      (highLen 0x1FFFE 2) 2 []).state.queueIndexLimit = 1 := by
    rw [queueTail_queueIndexLimit,
      if_neg (fun hc => by rw [hl1] at hc; exact absurd hc.2 (by decide)), hl1]
  have hlq : q.state.queueIndexLimit = 1 := by
    rw [hq, queueTail_queueIndexLimit,
      if_neg (fun hc => by rw [hlq1] at hc; exact absurd hc.2 (by decide)), hlq1]
  have hiq : q.state.queueIndex = 0 := by
    rw [hq, queueTail_queueIndex, queueTail_queueIndex, hi, hi2]
  have hzq : q.state.queueSize = 65535 := by
    rw [hq, queueTail_queueSize, queueTail_queueSize, hz, hz2]
  refine ⟨q.state, [q1.ret, q2.ret] ++ (rets ++ [q.ret]),
    (q1.stored ++ (q2.stored ++ [])) ++ (ws ++ (q.stored ++ [])), ?_, hzq, hiq, hlq, ?_⟩
  · have hlist : sameRequests 65534 ⟨0, 0, 0, 1, 2⟩ ++ [(⟨0, 0x1FFFE, 0, 2, 2⟩ : Request)]
        = [⟨0, 0, 0, 1, 2⟩, ⟨0, 0, 0, 1, 2⟩]
          ++ (sameRequests 65532 ⟨0, 0, 0, 1, 2⟩ ++ [⟨0, 0x1FFFE, 0, 2, 2⟩]) := by
      rw [sameRequests_two 65532]
      rfl
    rw [hlist, runQueue_append, hrun0]
    simp only []
    rw [runQueue_append, hrun2]
    simp only []
    rw [runQueue_cons]
    simp only []
    rw [hsplit]
    rfl
  · rw [hlq, hiq]
    decide

/-- C19: evaluation at the failing input.  On a queue of capacity 65535 with
no budget (`DMA_initEx(65535, 0)`), 65534 one-word requests and then a
bank-crossing two-word request all return TRUE (65535 calls, 65536
descriptors, 131072 bytes, far from a 32-bit wrap), but the last call drives
the 16-bit `queueIndex` from 65534 over 65535 to 0, so the next
`DMA_flushQueue` replays nothing. -/
theorem true_returns_lost_on_wrap :
    ∃ s' rets ws,
      runQueue sampleHeader 2 (DMA_initEx powerOn zeroBlock 65535 0)
        (sameRequests 65534 ⟨0, 0, 0, 1, 2⟩ ++ [⟨0, 0x1FFFE, 0, 2, 2⟩]) = some (s', rets, ws) ∧
      rets.length = 65535 ∧ (∀ b ∈ rets, b = true) ∧ ws.length = 65536 ∧
      s'.queueTransferSize = 131072 ∧ s'.queueIndex = 0 ∧
      (DMA_flushQueue s').replayed = [] := by
  obtain ⟨s1, rets, ws, hrun, hi, hz, hm, hf, hrl, hwl, htot, _, hbud⟩ :=
    runQueue_sameRequests sampleHeader ⟨0, 0, 0, 1, 2⟩ (by decide) 65534
      (DMA_initEx powerOn zeroBlock 65535 0) (by decide) (by decide) (by decide)
  have hi' : s1.queueIndex = 65534 := hi
  have hz' : s1.queueSize = 65535 := hz
  have hm' : s1.maxTransferPerFrame = 0 := hm
  have htot' : s1.queueTransferSize = 131068 := htot
  obtain ⟨hl1, hall⟩ := hbud rfl
  have hl1' : s1.queueIndexLimit = 0 := hl1
  have hsplit := DMA_queueDma_split sampleHeader 0 s1 0 0x1FFFE 0 2 2 (by omega) (by decide)
  have hnb1 : ¬ overBudget s1 (highLen 0x1FFFE 2) := fun hc => hc.1 hm'
  have hnb2 : ¬ overBudget (queueTail sampleHeader s1 0 (highFrom 0x1FFFE) (highTo 0x1FFFE 0)
      (highLen 0x1FFFE 2) 2 []).state ((0x20000 - 0x1FFFE % 0x20000) / 2) :=
    fun hc => hc.1 (by rw [queueTail_maxTransferPerFrame]; exact hm')
  obtain ⟨q, hq⟩ : ∃ q, q = queueTail sampleHeader
      (queueTail sampleHeader s1 0 (highFrom 0x1FFFE) (highTo 0x1FFFE 0) (highLen 0x1FFFE 2) 2
        []).state
      0 0x1FFFE 0 ((0x20000 - 0x1FFFE % 0x20000) / 2) 2
      (queueTail sampleHeader s1 0 (highFrom 0x1FFFE) (highTo 0x1FFFE 0) (highLen 0x1FFFE 2) 2
        []).stored := ⟨_, rfl⟩
  rw [← hq] at hsplit
  have hlq1 : (queueTail sampleHeader s1 0 (highFrom 0x1FFFE) (highTo 0x1FFFE 0)
      (highLen 0x1FFFE 2) 2 []).state.queueIndexLimit = 0 := by
    rw [queueTail_queueIndexLimit, if_neg (fun hc => hnb1 hc.1), hl1']
  have hlq : q.state.queueIndexLimit = 0 := by
    rw [hq, queueTail_queueIndexLimit, if_neg (fun hc => hnb2 hc.1), hlq1]
  have hiq : q.state.queueIndex = 0 := by
    rw [hq, queueTail_queueIndex, queueTail_queueIndex, hi']
  refine ⟨q.state, rets ++ [q.ret], ws ++ (q.stored ++ []), ?_, ?_, ?_, ?_, ?_, ?_, ?_⟩
  · have hrun2 : runQueue sampleHeader 2 (DMA_initEx powerOn zeroBlock 65535 0)
        (sameRequests 65534 ⟨0, 0, 0, 1, 2⟩) = some (s1, rets, ws) := hrun 1
    have hsplit2 : DMA_queueDma sampleHeader 2 s1 0 0x1FFFE 0 2 2 = some q := hsplit
    rw [runQueue_append, hrun2]
    simp only []
    rw [runQueue_cons]
    simp only []
    rw [hsplit2]
    rfl
  · simp [hrl]
  · intro b hb
    rcases List.mem_append.1 hb with hb | hb
    · exact hall b hb
    · rw [List.mem_singleton] at hb
      rw [hb, hq, queueTail_ret, if_neg (fun hc => hnb2 hc.1)]
  · simp [hq, queueTail_stored, hwl]
  · simp only [hq, queueTail_queueTransferSize, htot']
    decide
  · exact hiq
  · unfold DMA_flushQueue replayCount
    simp [hlq, hiq]

/-! ## Counters of queues below the largest capacity -/

theorem queueTail_countersOk (h : VdpHeader) (s : DMAState)
    (location from_ to_ newlen step : Nat) (acc : List Stored)
    (hinv : CountersOk s) (hroom : s.queueIndex ≤ s.queueSize) :
    CountersOk (queueTail h s location from_ to_ newlen step acc).state := by
  obtain ⟨hz, _, hl⟩ := hinv
  unfold CountersOk
  rw [queueTail_queueSize, queueTail_queueIndex, queueTail_queueIndexLimit]
  refine ⟨hz, by omega, ?_⟩
  split_ifs with hc
  · right
    omega
  · rcases hl with hl | hl
    · exact Or.inl hl
    · right
      omega

theorem queueDma_countersOk (h : VdpHeader) (s : DMAState)
    (fuel location from_ to_ len step : Nat) (q : QueueResult) (hinv : CountersOk s)
    (hq : DMA_queueDma h fuel s location from_ to_ len step = some q) :
    CountersOk q.state := by
  by_cases hroom : s.queueIndex < s.queueSize
  · by_cases hcross : len > (0x20000 - from_ % 0x20000) / 2
    · match fuel, hq with
      | 0, hq => exact absurd hq (by simp [DMA_queueDma])
      | 1, hq =>
        rw [DMA_queueDma_split_one h s location from_ to_ len step hroom hcross] at hq
        exact absurd hq (by simp)
      | k + 2, hq =>
        rw [DMA_queueDma_split h k s location from_ to_ len step hroom hcross] at hq
        rw [← Option.some.inj hq]
        apply queueTail_countersOk
        · exact queueTail_countersOk h s location _ _ _ step [] hinv (by omega)
        · rw [queueTail_queueIndex, queueTail_queueSize]
          have := hinv.1
          omega
    · match fuel, hq with
      | 0, hq => exact absurd hq (by simp [DMA_queueDma])
      | k + 1, hq =>
        rw [DMA_queueDma_nosplit h k s location from_ to_ len step hroom (by omega)] at hq
        rw [← Option.some.inj hq]
        exact queueTail_countersOk h s location from_ to_ len step [] hinv (by omega)
  · match fuel, hq with
    | 0, hq => exact absurd hq (by simp [DMA_queueDma])
    | k + 1, hq =>
      rw [DMA_queueDma_full h k s location from_ to_ len step (by omega)] at hq
      rw [← Option.some.inj hq]
      exact hinv

/-- Below the largest capacity the counters stay consistent in every reachable
state: the 16-bit occupied count cannot wrap, the overflow index is 0 or at
most the occupied count, and `DMA_flushQueue` replays at most the occupied
count. -/
theorem reachable_countersOk (h : VdpHeader) (size capacity : Nat) (s : DMAState)
    (hsize : (if size ≠ 0 then size else DMA_DEFAULT_QUEUE_SIZE) < 0xFFFF)
    (hreach : Reachable h size capacity s) :
    CountersOk s ∧ replayCount s ≤ s.queueIndex := by
  have hinv : CountersOk s := by
    induction hreach with
    | init s0 fresh => exact ⟨hsize, Nat.zero_le _, Or.inl rfl⟩
    | queue s fuel location from_ to_ len step q _ hq ih =>
      exact queueDma_countersOk h s fuel location from_ to_ len step q ih hq
    | clear s _ ih => exact ⟨ih.1, Nat.zero_le _, Or.inl rfl⟩
    | flush s _ ih => exact ⟨ih.1, Nat.zero_le _, Or.inl rfl⟩
  refine ⟨hinv, ?_⟩
  unfold replayCount
  obtain ⟨_, _, hl⟩ := hinv
  split_ifs <;> omega

end Dma
